import Mathlib

/-!
Shallow embedding of the go-test/deep structural diff engine (src/deep.go)
and proofs checking the natural-language specification against it.

Go reflection values are modelled by the inductive `GoVal`; pointer
indirection goes through an explicit heap so that cyclic object graphs are
representable.  The comparison context `cmp` of the Go code becomes the
structure `Cmp`, the package-level configuration variables become the
structure `Config`, and the recursive method `cmp.equals` becomes the
fuel-indexed function `equalsF`.  Host-library calls made through
reflection (`Error()`, `Equal`, `Truncate`, `fmt` rendering) are modelled
by small interpreters, documented at their definitions.
-/

namespace DeepSpec

/-- Runtime kind of a value, mirroring the reflect.Kind cases that
src/deep.go distinguishes.  The integer kinds Int..Int64 are collapsed to
`kint` (the code reads them uniformly through `Value.Int`), likewise for
unsigned and float widths.  `kother` stands for a kind the code does not
handle (chan, complex, ...), reaching the `default` branch. -/
inductive GoKind where
  | kbool | kint | kuint | kfloat | kstring
  | kstruct | kmap | karray | kslice
  | kptr | kinterface | kfunc | kother
deriving DecidableEq, Repr

/-- Behaviour of a user-provided `Equal` method, interpreted by
`runEqualSpec`.  `payloadEq` compares the two values structurally (the
behaviour of e.g. time.Time.Equal on this model); `always r` is a method
returning the constant `r` (any user method may behave this way on a
given pair). -/
inductive EqSpec where
  | payloadEq
  | always (r : Bool)
deriving DecidableEq, Repr

/-- Signature and behaviour of a type's `Equal` method as seen through
reflection: number of inputs, identity of the first input type, number of
outputs, kind of the first output, and the call behaviour. -/
structure EqualMeta where
  numIn : Nat
  arg0 : Nat
  numOut : Nat
  out0 : GoKind
  spec : EqSpec
deriving DecidableEq, Repr

/-- Runtime type descriptor.  `id` models reflect.Type identity (two
descriptors compare equal iff they model the same Go type), `str` is the
type's String() rendering, `name` its Name(), `pkgPath` its PkgPath().
`implErr` records whether the type implements the error interface, and
`equalM` the reflective signature of its `Equal` method, if any. -/
structure GoType where
  id : Nat
  str : String
  name : String
  pkgPath : String
  implErr : Bool
  equalM : Option EqualMeta
deriving DecidableEq, Repr

/-- Struct field metadata: declared name, PkgPath (nonempty exactly for
unexported fields) and the value of the `deep` struct tag. -/
structure FieldMeta where
  fname : String
  fpkgPath : String
  tagDeep : String
deriving DecidableEq, Repr

/-- Model of a float64 value.  IEEE NaN and infinities are explicit;
finite values carry their exact rational value as a fraction num/den, a
flag marking the negative-zero bit pattern (numerically equal to zero
but rendering with a minus sign), and the string `rep` that fmt's %v
verb produces for them. -/
inductive GoFloat where
  | nan
  | inf (neg : Bool)
  | fin (negZero : Bool) (num : Int) (den : Nat) (rep : String)
deriving DecidableEq, Repr

/-- A reflection value.  Every constructor except `invalid` carries its
runtime type and the read-only flag `ro` (set on values reached through
unexported struct fields; a method of such a value is not
interface-accessible).  Maps and slices carry `none` when nil, otherwise
an identity tag (modelling Value.Pointer) and their contents.  Pointers
carry `none` when nil, otherwise a heap address. -/
inductive GoVal where
  | invalid
  | vbool (t : GoType) (ro : Bool) (x : Bool)
  | vint (t : GoType) (ro : Bool) (x : Int)
  | vuint (t : GoType) (ro : Bool) (x : Nat)
  | vfloat (t : GoType) (ro : Bool) (x : GoFloat)
  | vstring (t : GoType) (ro : Bool) (s : String)
  | vstruct (t : GoType) (ro : Bool) (fields : List (FieldMeta × GoVal))
  | vmap (t : GoType) (ro : Bool) (m : Option (Nat × List (GoVal × GoVal)))
  | varray (t : GoType) (ro : Bool) (elems : List GoVal)
  | vslice (t : GoType) (ro : Bool) (s : Option (Nat × List GoVal))
  | vptr (t : GoType) (ro : Bool) (addr : Option Nat)
  | viface (t : GoType) (ro : Bool) (v : Option GoVal)
  | vfunc (t : GoType) (ro : Bool) (isNilF : Bool)
  | vother (t : GoType) (ro : Bool)

mutual

/-- Structural equality of two model values, used to interpret the Go
built-in equality on map keys and the `payloadEq` behaviour of a user
`Equal` method. -/
def valEqB : GoVal → GoVal → Bool
  | .invalid, .invalid => true
  | .vbool t r x, .vbool t2 r2 x2 => t = t2 ∧ r = r2 ∧ x = x2
  | .vint t r x, .vint t2 r2 x2 => t = t2 ∧ r = r2 ∧ x = x2
  | .vuint t r x, .vuint t2 r2 x2 => t = t2 ∧ r = r2 ∧ x = x2
  | .vfloat t r x, .vfloat t2 r2 x2 => t = t2 ∧ r = r2 ∧ x = x2
  | .vstring t r x, .vstring t2 r2 x2 => t = t2 ∧ r = r2 ∧ x = x2
  | .vstruct t r fs, .vstruct t2 r2 fs2 =>
      decide (t = t2) && decide (r = r2) && fieldsEqB fs fs2
  | .vmap t r none, .vmap t2 r2 none => t = t2 ∧ r = r2
  | .vmap t r (some (p, es)), .vmap t2 r2 (some (p2, es2)) =>
      decide (t = t2) && decide (r = r2) && decide (p = p2) && entriesEqB es es2
  | .varray t r es, .varray t2 r2 es2 =>
      decide (t = t2) && decide (r = r2) && listEqB es es2
  | .vslice t r none, .vslice t2 r2 none => t = t2 ∧ r = r2
  | .vslice t r (some (p, es)), .vslice t2 r2 (some (p2, es2)) =>
      decide (t = t2) && decide (r = r2) && decide (p = p2) && listEqB es es2
  | .vptr t r a, .vptr t2 r2 a2 => t = t2 ∧ r = r2 ∧ a = a2
  | .viface t r none, .viface t2 r2 none => t = t2 ∧ r = r2
  | .viface t r (some w), .viface t2 r2 (some w2) =>
      decide (t = t2) && decide (r = r2) && valEqB w w2
  | .vfunc t r n, .vfunc t2 r2 n2 => t = t2 ∧ r = r2 ∧ n = n2
  | .vother t r, .vother t2 r2 => t = t2 ∧ r = r2
  | _, _ => false

def fieldsEqB : List (FieldMeta × GoVal) → List (FieldMeta × GoVal) → Bool
  | [], [] => true
  | (m, v) :: rest, (m2, v2) :: rest2 =>
      decide (m = m2) && valEqB v v2 && fieldsEqB rest rest2
  | _, _ => false

def entriesEqB : List (GoVal × GoVal) → List (GoVal × GoVal) → Bool
  | [], [] => true
  | (k, v) :: rest, (k2, v2) :: rest2 =>
      valEqB k k2 && valEqB v v2 && entriesEqB rest rest2
  | _, _ => false

def listEqB : List GoVal → List GoVal → Bool
  | [], [] => true
  | v :: rest, v2 :: rest2 => valEqB v v2 && listEqB rest rest2
  | _, _ => false

end

/-- Placeholder type descriptor returned by `GoVal.ty` on an invalid
value; the engine never consults the type of an invalid value beyond the
guarded branches. -/
def dummyType : GoType := ⟨0, "", "", "", false, none⟩

/-- Runtime type of a value (reflect.Value.Type). -/
def GoVal.ty : GoVal → GoType
  | .invalid => dummyType
  | .vbool t _ _ => t
  | .vint t _ _ => t
  | .vuint t _ _ => t
  | .vfloat t _ _ => t
  | .vstring t _ _ => t
  | .vstruct t _ _ => t
  | .vmap t _ _ => t
  | .varray t _ _ => t
  | .vslice t _ _ => t
  | .vptr t _ _ => t
  | .viface t _ _ => t
  | .vfunc t _ _ => t
  | .vother t _ => t

/-- Runtime kind of a value (reflect.Value.Kind), determined by the
constructor. -/
def GoVal.kindOf : GoVal → GoKind
  | .invalid => .kother
  | .vbool _ _ _ => .kbool
  | .vint _ _ _ => .kint
  | .vuint _ _ _ => .kuint
  | .vfloat _ _ _ => .kfloat
  | .vstring _ _ _ => .kstring
  | .vstruct _ _ _ => .kstruct
  | .vmap _ _ _ => .kmap
  | .varray _ _ _ => .karray
  | .vslice _ _ _ => .kslice
  | .vptr _ _ _ => .kptr
  | .viface _ _ _ => .kinterface
  | .vfunc _ _ _ => .kfunc
  | .vother _ _ => .kother

/-- Validity of a reflection value (reflect.Value.IsValid). -/
def GoVal.isValid : GoVal → Bool
  | .invalid => false
  | _ => true

/-- Read-only flag: true when the value was reached through an
unexported struct field, in which case its methods fail CanInterface. -/
def GoVal.roOf : GoVal → Bool
  | .invalid => false
  | .vbool _ r _ => r
  | .vint _ r _ => r
  | .vuint _ r _ => r
  | .vfloat _ r _ => r
  | .vstring _ r _ => r
  | .vstruct _ r _ => r
  | .vmap _ r _ => r
  | .varray _ r _ => r
  | .vslice _ r _ => r
  | .vptr _ r _ => r
  | .viface _ r _ => r
  | .vfunc _ r _ => r
  | .vother _ r => r

/-- Nil test (reflect.Value.IsNil), meaningful for pointers, interfaces,
maps, slices and funcs. -/
def GoVal.isNil : GoVal → Bool
  | .vptr _ _ none => true
  | .viface _ _ none => true
  | .vmap _ _ none => true
  | .vslice _ _ none => true
  | .vfunc _ _ n => n
  | _ => false

/-- Address of a non-nil pointer (reflect.Value.Pointer on a Ptr). -/
def GoVal.ptrOf : GoVal → Nat
  | .vptr _ _ (some a) => a
  | _ => 0

/-- Identity tag of a non-nil map (reflect.Value.Pointer on a Map). -/
def GoVal.mapPtr : GoVal → Nat
  | .vmap _ _ (some (p, _)) => p
  | _ => 0

/-- Entries of a map value, in the model's enumeration order. -/
def GoVal.mapEntries : GoVal → List (GoVal × GoVal)
  | .vmap _ _ (some (_, es)) => es
  | _ => []

/-- Length of a map (reflect.Value.Len; 0 for a nil map). -/
def GoVal.mapLen (v : GoVal) : Nat := v.mapEntries.length

/-- Backing-array identity tag of a non-nil slice. -/
def GoVal.slicePtr : GoVal → Nat
  | .vslice _ _ (some (p, _)) => p
  | _ => 0

/-- Elements of a slice value (empty for a nil slice). -/
def GoVal.sliceElems : GoVal → List GoVal
  | .vslice _ _ (some (_, es)) => es
  | _ => []

/-- Length of a slice (reflect.Value.Len; 0 for a nil slice). -/
def GoVal.sliceLen (v : GoVal) : Nat := v.sliceElems.length

/-- Fields of a struct value together with their metadata. -/
def GoVal.fieldsOf : GoVal → List (FieldMeta × GoVal)
  | .vstruct _ _ fs => fs
  | _ => []

/-- Elements of an array value. -/
def GoVal.arrayElems : GoVal → List GoVal
  | .varray _ _ es => es
  | _ => []

/-- Payload accessors for the scalar kinds (Value.Bool, Value.Int, ...). -/
def GoVal.boolPayload : GoVal → Bool
  | .vbool _ _ x => x
  | _ => false

def GoVal.intPayload : GoVal → Int
  | .vint _ _ x => x
  | _ => 0

def GoVal.uintPayload : GoVal → Nat
  | .vuint _ _ x => x
  | _ => 0

def GoVal.floatPayload : GoVal → GoFloat
  | .vfloat _ _ x => x
  | _ => .nan

def GoVal.strPayload : GoVal → String
  | .vstring _ _ s => s
  | _ => ""

def GoVal.funcIsNil : GoVal → Bool
  | .vfunc _ _ n => n
  | _ => false

/-- Mark a value read-only when `b` is true (propagation of reflect's
read-only flag through field, element and Elem accesses). -/
def orRO (b : Bool) : GoVal → GoVal
  | .invalid => .invalid
  | .vbool t r x => .vbool t (r || b) x
  | .vint t r x => .vint t (r || b) x
  | .vuint t r x => .vuint t (r || b) x
  | .vfloat t r x => .vfloat t (r || b) x
  | .vstring t r s => .vstring t (r || b) s
  | .vstruct t r fs => .vstruct t (r || b) fs
  | .vmap t r m => .vmap t (r || b) m
  | .varray t r es => .varray t (r || b) es
  | .vslice t r s => .vslice t (r || b) s
  | .vptr t r a => .vptr t (r || b) a
  | .viface t r v => .viface t (r || b) v
  | .vfunc t r n => .vfunc t (r || b) n
  | .vother t r => .vother t (r || b)

/-- Heap mapping addresses to stored values; pointers are resolved
through it, which makes cyclic object graphs representable. -/
abbrev Heap := List (Nat × GoVal)

/-- Look an address up in the heap. -/
def lookupHeap (h : Heap) (a : Nat) : Option GoVal :=
  match h with
  | [] => none
  | (a2, v) :: rest => if a2 = a then some v else lookupHeap rest a

/-- Dereference a pointer or interface (reflect.Value.Elem), propagating
the read-only flag. -/
def elemOf (h : Heap) : GoVal → GoVal
  | .vptr _ r (some a) =>
      match lookupHeap h a with
      | some w => orRO r w
      | none => .invalid
  | .viface _ r (some w) => orRO r w
  | _ => .invalid

/-- Resolve a value to its concrete (non-interface) form, as the loop
`for a.Kind() == reflect.Interface { a = a.Elem() }` does in the nil
branch of cmp.equals. -/
def resolveIface : GoVal → GoVal
  | .viface _ _ (some w) => resolveIface w
  | .viface t r none => .viface t r none
  | v => v

/-- Rendering of a float by fmt's default %v verb.  Finite values carry
their %v string with them (it is determined by the IEEE bit pattern,
which the model does not reconstruct from the rational value). -/
def GoFloat.rend : GoFloat → String
  | .nan => "NaN"
  | .inf neg => if neg then "-Inf" else "+Inf"
  | .fin _ _ _ rep => rep

/-- Raw IEEE equality of two floats (the Go expression
`a.Float() == b.Float()`): NaN is unequal to everything, infinities
compare by sign, finite values by numeric value (cross-multiplication
of the fractions) — so a positive and a negative zero are equal here. -/
def feq : GoFloat → GoFloat → Bool
  | .inf n, .inf m => n = m
  | .fin _ n d _, .fin _ n2 d2 _ => n * d2 = n2 * d
  | _, _ => false

/-- Pad a numeral string with leading zeros up to width `n`. -/
def padLeftZeros (s : String) (n : Nat) : String :=
  if s.length < n then String.mk (List.replicate (n - s.length) '0') ++ s else s

/-- Fixed-decimal rendering of a float with `prec` digits after the
point.  Modelled from the spec: this interprets the host call
`fmt.Sprintf(c.floatFormat, x)` where floatFormat is "%.<prec>f"
(src/deep.go line 86 and lines 463-464): the magnitude is scaled by
10^prec and rounded to the nearest integer ((2m·10^prec + den) /
(2·den) in integer division is the floor of m/den·10^prec + 1/2; the
host rounds ties to even, the model rounds ties up, which agrees with
the host on every non-tie input). -/
def fixedFormat (prec : Nat) : GoFloat → String
  | .nan => "NaN"
  | .inf neg => if neg then "-Inf" else "+Inf"
  | .fin negZero num den _ =>
      let sign := if num < 0 ∨ negZero then "-" else ""
      let n := (2 * num.natAbs * 10 ^ prec + den) / (2 * den)
      let ip := n / 10 ^ prec
      let fp := n % 10 ^ prec
      if prec = 0 then sign ++ toString ip
      else sign ++ toString ip ++ "." ++ padLeftZeros (toString fp) prec

mutual

/-- Default rendering of a value by fmt's %v verb, as used by
cmp.saveDiff when it is handed a reflect.Value.  Modelled from the spec:
this interprets the host formatting (scalars render as their literal
form, structs as brace-wrapped fields, slices and arrays as
bracket-wrapped elements, maps as map[k:v ...] in the model's
enumeration order, pointers as an address numeral). -/
def render : GoVal → String
  | .invalid => "<invalid reflect.Value>"
  | .vbool _ _ x => if x then "true" else "false"
  | .vint _ _ x => toString x
  | .vuint _ _ x => toString x
  | .vfloat _ _ f => f.rend
  | .vstring _ _ s => s
  | .vstruct _ _ fs => "\x7b" ++ renderFields fs ++ "\x7d"
  | .vmap _ _ none => "map[]"
  | .vmap _ _ (some (_, es)) => "map[" ++ renderEntries es ++ "]"
  | .varray _ _ es => "[" ++ renderList es ++ "]"
  | .vslice _ _ none => "[]"
  | .vslice _ _ (some (_, es)) => "[" ++ renderList es ++ "]"
  | .vptr _ _ none => "<nil>"
  | .vptr _ _ (some a) => "0x" ++ toString a
  | .viface _ _ none => "<nil>"
  | .viface _ _ (some w) => render w
  | .vfunc _ _ _ => "<func>"
  | .vother _ _ => "<other>"

def renderFields : List (FieldMeta × GoVal) → String
  | [] => ""
  | [(_, v)] => render v
  | (_, v) :: rest => render v ++ " " ++ renderFields rest

def renderEntries : List (GoVal × GoVal) → String
  | [] => ""
  | [(k, v)] => render k ++ ":" ++ render v
  | (k, v) :: rest => render k ++ ":" ++ render v ++ " " ++ renderEntries rest

def renderList : List GoVal → String
  | [] => ""
  | [v] => render v
  | v :: rest => render v ++ " " ++ renderList rest

end

/-- Message produced by calling Error() on a value.  Modelled from the
spec: the host dispatches the call to the user implementation; the model
draws the message from the value's payload, covering errors.New-style
implementations (a pointer to a struct whose first string field holds
the message), string- and integer-kinded error implementations, and
interface values wrapping any of these. -/
def errorPayloadStr : GoVal → String
  | .vstring _ _ s => s
  | .vint _ _ x => toString x
  | .vstruct _ _ fs =>
      match fs.find? (fun fv => fv.2.kindOf = .kstring) with
      | some fv => fv.2.strPayload
      | none => ""
  | _ => ""

def errorMsgOf (h : Heap) : GoVal → String
  | .vptr _ _ (some a) =>
      match lookupHeap h a with
      | some w => errorPayloadStr w
      | none => ""
  | .viface _ _ (some w) => errorMsgOf h w
  | v => errorPayloadStr v

/-- Interpretation of a user Equal method call `a.Equal(b)`. -/
def runEqualSpec : EqSpec → GoVal → GoVal → Bool
  | .payloadEq, a, b => valEqB a b
  | .always r, _, _ => r

/-- Reflexive behaviours of a user Equal method: those that return true
when both arguments are the same value. -/
def EqSpec.isRefl : EqSpec → Bool
  | .payloadEq => true
  | .always r => r

/-- Type descriptor of time.Time.  Its Equal method takes one argument
of the same type and returns a bool, and compares the carried instants
(payload equality in the model).  Defined here because cmp.equals
compares types against it when TimePrecision is set. -/
def timeType : GoType :=
  ⟨1000, "time.Time", "Time", "time", false, some ⟨1, 1000, 1, .kbool, .payloadEq⟩⟩

/-- Type descriptor of time.Duration (an int64 kind with no Equal
method). -/
def durationType : GoType :=
  ⟨1001, "time.Duration", "Duration", "time", false, none⟩

/-- Truncation of an int payload toward zero to a multiple of `p`,
modelling Duration.Truncate and the truncation of a timestamp's
nanosecond payload. -/
def truncInt (p x : Int) : Int := x - x.tmod p

/-- Interpretation of the reflective call `v.Truncate(p)`.  Modelled
from the spec: the host truncates a time.Duration (an integer number of
nanoseconds) or a time.Time (here a struct whose integer fields carry
the instant) toward a multiple of the precision; the returned value is
fresh, hence not read-only. -/
def runTruncate (p : Int) : GoVal → GoVal
  | .vint t _ x => .vint t false (truncInt p x)
  | .vstruct t _ fs =>
      .vstruct t false (fs.map (fun fv =>
        match fv.2 with
        | .vint t2 _ x => (fv.1, .vint t2 false (truncInt p x))
        | w => (fv.1, w)))
  | v => v

/-- Snapshot of the package-level configuration variables of
src/deep.go, taken for one call (LogErrors only affects the side-band
log and is not modelled). -/
structure Config where
  FloatPrecision : Nat := 10
  TimePrecision : Int := 0
  MaxDiff : Nat := 10
  MaxDepth : Nat := 0
  CompareUnexportedFields : Bool := false
  CompareFunctions : Bool := false
  NilSlicesAreEmpty : Bool := false
  NilMapsAreEmpty : Bool := false
deriving DecidableEq, Repr

/-- Default configuration: the initial values of the package-level
variables. -/
def defaultConfig : Config := {}

/-- Comparison context, modelling the struct cmp of src/deep.go: the
accumulated diff list, the path buffer and the set of seen pointer
addresses (the Go map[uintptr]struct\x7b\x7d is modelled by a list read
only through membership). -/
structure Cmp where
  diff : List String := []
  buff : List String := []
  seen : List Nat := []
deriving DecidableEq, Repr

/-- Format one diff line from the path and the two renderings
(formatDiff in src/deep.go). -/
def formatDiff (pfxs : List String) (aval bval : String) : String :=
  if 0 < pfxs.length then
    String.intercalate "." pfxs ++ ": " ++ aval ++ " != " ++ bval
  else aval ++ " != " ++ bval

def Cmp.saveDiff (c : Cmp) (aval bval : String) : Cmp :=
  { c with diff := c.diff ++ [formatDiff c.buff aval bval] }

def Cmp.prefixDiff (c : Cmp) (pfx aval bval : String) : Cmp :=
  { c with diff := c.diff ++ [formatDiff (c.buff ++ [pfx]) aval bval] }

def Cmp.push (c : Cmp) (name : String) : Cmp :=
  { c with buff := c.buff ++ [name] }

def Cmp.pop (c : Cmp) : Cmp :=
  { c with buff := c.buff.dropLast }

/-- Record both pointer addresses of the pair being descended into
(cmp.saw records each address as its own entry in the seen set). -/
def Cmp.saw (c : Cmp) (p q : Nat) : Cmp :=
  { c with seen := c.seen ++ [p, q] }

/-- Test whether either address of the pair has been recorded
(cmp.haveSeen returns true as soon as any single argument is found). -/
def Cmp.haveSeen (c : Cmp) (p q : Nat) : Bool :=
  c.seen.contains p || c.seen.contains q

/-- Lookup of a key in a map's entry list (reflect.Value.MapIndex);
returns none — an invalid Value in the Go code — when absent. -/
def mapLookup (es : List (GoVal × GoVal)) (k : GoVal) : Option GoVal :=
  match es with
  | [] => none
  | (k2, v) :: rest => if valEqB k2 k then some v else mapLookup rest k

/-- Shape of the recursive comparison continuation handed to the
per-kind walkers. -/
abbrev RecFn := GoVal → GoVal → Nat → Cmp → Option Cmp

/-- Walker over the extra positions of the first slice (the loop
`for i := bLen; i < aLen` of src/deep.go). -/
def sliceTailA (maxDiff : Nat) : Nat → List GoVal → Cmp → Cmp
  | _, [], c => c
  | i, v :: rest, c =>
      if maxDiff ≤ c.diff.length then c
      else sliceTailA maxDiff (i + 1) rest
        (c.prefixDiff ("slice[" ++ toString i ++ "]") (render v) "<no value>")

/-- Walker over the extra positions of the second slice (the loop
`for i := aLen; i < bLen` of src/deep.go). -/
def sliceTailB (maxDiff : Nat) : Nat → List GoVal → Cmp → Cmp
  | _, [], c => c
  | i, v :: rest, c =>
      if maxDiff ≤ c.diff.length then c
      else sliceTailB maxDiff (i + 1) rest
        (c.prefixDiff ("slice[" ++ toString i ++ "]") "<no value>" (render v))

/-- Walker over the second map's keys, reporting the ones the first map
lacks (the second MapKeys loop of src/deep.go). -/
def mapLoopB (maxDiff : Nat) (aEs : List (GoVal × GoVal)) :
    List (GoVal × GoVal) → Cmp → Cmp
  | [], c => c
  | (k, bv) :: rest, c =>
      if maxDiff ≤ c.diff.length then c
      else
        match mapLookup aEs k with
        | some _ => mapLoopB maxDiff aEs rest c
        | none =>
            mapLoopB maxDiff aEs rest
              (c.prefixDiff ("map[" ++ render k ++ "]") "<does not have key>" (render bv))

/-- Struct field walker (the reflect.Struct case of cmp.equals): fields
are visited in declaration order; unexported fields are skipped unless
CompareUnexportedFields is set, fields tagged deep:"-" are skipped; the
remaining fields are compared under a pushed path segment holding the
field name. -/
def structLoop (cfg : Config) (rec : RecFn) (aRO bRO : Bool) :
    List (FieldMeta × GoVal) → List GoVal → Nat → Cmp → Option Cmp
  | [], _, _, c => some c
  | (m, av) :: rest, bvs, level, c =>
      if cfg.MaxDiff ≤ c.diff.length then some c
      else if m.fpkgPath ≠ "" ∧ cfg.CompareUnexportedFields = false then
        structLoop cfg rec aRO bRO rest bvs.tail level c
      else if m.tagDeep = "-" then
        structLoop cfg rec aRO bRO rest bvs.tail level c
      else
        match rec (orRO (aRO || m.fpkgPath != "") av)
                  (orRO (bRO || m.fpkgPath != "") (bvs.headD .invalid))
                  (level + 1) (c.push m.fname) with
        | none => none
        | some c2 => structLoop cfg rec aRO bRO rest bvs.tail level c2.pop

/-- Array element walker (the reflect.Array case of cmp.equals). -/
def arrayLoop (cfg : Config) (rec : RecFn) (aRO bRO : Bool) :
    Nat → List GoVal → List GoVal → Nat → Cmp → Option Cmp
  | _, [], _, _, c => some c
  | i, av :: rest, bvs, level, c =>
      if cfg.MaxDiff ≤ c.diff.length then some c
      else
        match rec (orRO aRO av) (orRO bRO (bvs.headD .invalid)) (level + 1)
                  (c.push ("array[" ++ toString i ++ "]")) with
        | none => none
        | some c2 => arrayLoop cfg rec aRO bRO (i + 1) rest bvs.tail level c2.pop

/-- Slice element walker over the common positions (the loop
`for i := 0; i < n` with n the smaller length, src/deep.go). -/
def sliceLoopEls (cfg : Config) (rec : RecFn) (aRO bRO : Bool) :
    Nat → List GoVal → List GoVal → Nat → Cmp → Option Cmp
  | _, [], _, _, c => some c
  | _, _ :: _, [], _, c => some c
  | i, av :: arest, bv :: brest, level, c =>
      if cfg.MaxDiff ≤ c.diff.length then some c
      else
        match rec (orRO aRO av) (orRO bRO bv) (level + 1)
                  (c.push ("slice[" ++ toString i ++ "]")) with
        | none => none
        | some c2 => sliceLoopEls cfg rec aRO bRO (i + 1) arest brest level c2.pop

/-- First map-keys walker (the first MapKeys loop of cmp.equals): keys
missing on the second side are reported with the suffix map[key];
shared keys are compared under a pushed map[key] segment. -/
def mapLoopA (cfg : Config) (rec : RecFn) (aRO bRO : Bool)
    (bEs : List (GoVal × GoVal)) :
    List (GoVal × GoVal) → Nat → Cmp → Option Cmp
  | [], _, c => some c
  | (k, av) :: rest, level, c =>
      if cfg.MaxDiff ≤ c.diff.length then some c
      else
        match mapLookup bEs k with
        | none =>
            mapLoopA cfg rec aRO bRO bEs rest level
              (c.prefixDiff ("map[" ++ render k ++ "]") (render av) "<does not have key>")
        | some bv =>
            match rec (orRO aRO av) (orRO bRO bv) (level + 1)
                      (c.push ("map[" ++ render k ++ "]")) with
            | none => none
            | some c2 => mapLoopA cfg rec aRO bRO bEs rest level c2.pop

/-- Continuation of cmp.equals after the capability probes: pointer and
interface indirection (with the cycle guard for pointer kinds), then the
kind switch over the container walkers, scalar comparators, function
comparison and the unhandled-kind fallthrough (src/deep.go lines
219-512). -/
def equalsRest (cfg : Config) (h : Heap) (rec : RecFn)
    (a b : GoVal) (level : Nat) (c : Cmp) : Option Cmp :=
  if a.kindOf = GoKind.kptr ∨ a.kindOf = GoKind.kinterface then
    if a.isNil = true ∨ b.isNil = true then
      let c1 := if a.isNil = false then c.saveDiff (resolveIface a).ty.str "<nil pointer>" else c
      let c2 := if b.isNil = false then c1.saveDiff "<nil pointer>" (resolveIface b).ty.str else c1
      some c2
    else if a.kindOf = GoKind.kptr then
      if c.haveSeen a.ptrOf b.ptrOf then some c
      else rec (elemOf h a) (elemOf h b) (level + 1) (c.saw a.ptrOf b.ptrOf)
    else rec (elemOf h a) (elemOf h b) (level + 1) c
  else
    match a with
    | .vstruct _ aro fs =>
        structLoop cfg rec aro b.roOf fs (b.fieldsOf.map Prod.snd) level c
    | .vmap _ aro _ =>
        if a.isNil = true ∨ b.isNil = true then
          if cfg.NilMapsAreEmpty = true then
            let c1 := if b.mapLen ≠ 0 then c.saveDiff "<nil map>" (render b) else c
            let c2 := if a.mapLen ≠ 0 then c1.saveDiff (render a) "<nil map>" else c1
            some c2
          else
            let c1 := if b.isNil = false then c.saveDiff "<nil map>" (render b) else c
            let c2 := if a.isNil = false then c1.saveDiff (render a) "<nil map>" else c1
            some c2
        else if a.mapPtr = b.mapPtr then some c
        else
          match mapLoopA cfg rec aro b.roOf b.mapEntries a.mapEntries level c with
          | none => none
          | some c2 => some (mapLoopB cfg.MaxDiff a.mapEntries b.mapEntries c2)
    | .varray _ aro es =>
        arrayLoop cfg rec aro b.roOf 0 es b.arrayElems level c
    | .vslice _ aro _ =>
        if a.isNil = true ∨ b.isNil = true then
          if cfg.NilSlicesAreEmpty = true then
            let c1 := if b.sliceLen ≠ 0 then c.saveDiff "<nil slice>" (render b) else c
            let c2 := if a.sliceLen ≠ 0 then c1.saveDiff (render a) "<nil slice>" else c1
            some c2
          else
            let c1 := if b.isNil = false then c.saveDiff "<nil slice>" (render b) else c
            let c2 := if a.isNil = false then c1.saveDiff (render a) "<nil slice>" else c1
            some c2
        else
          let step1 :=
            if a.slicePtr ≠ b.slicePtr then
              sliceLoopEls cfg rec aro b.roOf 0 a.sliceElems b.sliceElems level c
            else some c
          match step1 with
          | none => none
          | some c2 =>
              let c3 := sliceTailA cfg.MaxDiff b.sliceLen
                          (a.sliceElems.drop b.sliceLen) c2
              some (sliceTailB cfg.MaxDiff a.sliceLen
                          (b.sliceElems.drop a.sliceLen) c3)
    | .vfloat _ _ x =>
        let y := b.floatPayload
        if feq x y then some c
        else
          some (if fixedFormat cfg.FloatPrecision x ≠ fixedFormat cfg.FloatPrecision y
                then c.saveDiff (render a) (render b) else c)
    | .vbool _ _ x =>
        some (if x ≠ b.boolPayload then c.saveDiff (render a) (render b) else c)
    | .vint _ _ x =>
        some (if x ≠ b.intPayload then c.saveDiff (render a) (render b) else c)
    | .vuint _ _ x =>
        some (if x ≠ b.uintPayload then c.saveDiff (render a) (render b) else c)
    | .vstring _ _ s =>
        some (if s ≠ b.strPayload then c.saveDiff (render a) (render b) else c)
    | .vfunc _ _ an =>
        if cfg.CompareFunctions = true then
          if an = true ∨ b.funcIsNil = true then
            let c1 := if an = false then c.saveDiff "<non-nil func>" "<nil func>" else c
            let c2 := if b.funcIsNil = false then c1.saveDiff "<nil func>" "<non-nil func>" else c1
            some c2
          else some (c.saveDiff "<non-nil func>" "<non-nil func>")
        else some c
    | _ => some c

/-- One entry of cmp.equals (src/deep.go lines 106-513), indexed by
fuel: the MaxDiff and MaxDepth early exits, the validity check, the
type-identity check, the error capability short-circuit, the
TimePrecision truncation (reproducing the source exactly: both method
values are taken from a, so both working values become a's truncation),
the user Equal probe, and the dispatch to `equalsRest`. -/
def equalsF (cfg : Config) (h : Heap) : Nat → GoVal → GoVal → Nat → Cmp → Option Cmp
  | 0, _, _, _, _ => none
  | fuel + 1, a0, b0, level, c =>
    if cfg.MaxDiff ≤ c.diff.length then some c
    else if 0 < cfg.MaxDepth ∧ cfg.MaxDepth < level then some c
    else if a0.isValid = false ∨ b0.isValid = false then
      some (if a0.isValid then c.saveDiff a0.ty.str "<invalid value>"
            else if b0.isValid then c.saveDiff "<invalid value>" b0.ty.str
            else c)
    else if a0.ty ≠ b0.ty then
      some (if a0.ty.name = "" ∨ a0.ty.name ≠ b0.ty.name
            then c.saveDiff a0.ty.str b0.ty.str
            else c.saveDiff (a0.ty.pkgPath ++ "." ++ a0.ty.name)
                            (b0.ty.pkgPath ++ "." ++ b0.ty.name))
    else
      if a0.ty.implErr = true
         ∧ (¬(a0.kindOf = GoKind.kptr ∨ a0.kindOf = GoKind.kinterface)
            ∨ (a0.isNil = false ∧ b0.isNil = false))
         ∧ a0.roOf = false ∧ b0.roOf = false then
        let as := errorMsgOf h a0
        let bs := errorMsgOf h b0
        some (if as ≠ bs then c.saveDiff as bs else c)
      else
        let doTrunc : Prop := 0 < cfg.TimePrecision
          ∧ (a0.ty = timeType ∨ a0.ty = durationType) ∧ a0.roOf = false
        let a1 := if doTrunc then runTruncate cfg.TimePrecision a0 else a0
        let b1 := if doTrunc then runTruncate cfg.TimePrecision a0 else b0
        match a1.ty.equalM with
        | some m =>
            if a1.roOf = false
               ∧ m.numIn = 1 ∧ m.arg0 = b0.ty.id
               ∧ m.numOut = 1 ∧ m.out0 = GoKind.kbool then
              some (if runEqualSpec m.spec a1 b1 then c
                    else c.saveDiff (render a1) (render b1))
            else equalsRest cfg h (equalsF cfg h fuel) a1 b1 level c
        | none => equalsRest cfg h (equalsF cfg h fuel) a1 b1 level c

/-- Reflexivity of the Equal behaviour recorded on one type. -/
def goodEqsTy (t : GoType) : Bool :=
  match t.equalM with
  | none => true
  | some m => m.spec.isRefl

mutual

/-- Predicate (computable) holding when every user Equal method carried
by the value or any of its subvalues has a reflexive behaviour — i.e.
returns true when called with the receiver itself as argument.  A Go
type need not satisfy this (an Equal method may return false on equal
arguments), which is what breaks unconditional reflexivity. -/
def goodEqs : GoVal → Bool
  | .invalid => true
  | .vbool t _ _ => goodEqsTy t
  | .vint t _ _ => goodEqsTy t
  | .vuint t _ _ => goodEqsTy t
  | .vfloat t _ _ => goodEqsTy t
  | .vstring t _ _ => goodEqsTy t
  | .vstruct t _ fs => goodEqsTy t && goodEqsFields fs
  | .vmap t _ none => goodEqsTy t
  | .vmap t _ (some (_, es)) => goodEqsTy t && goodEqsEntries es
  | .varray t _ es => goodEqsTy t && goodEqsList es
  | .vslice t _ none => goodEqsTy t
  | .vslice t _ (some (_, es)) => goodEqsTy t && goodEqsList es
  | .vptr t _ _ => goodEqsTy t
  | .viface t _ none => goodEqsTy t
  | .viface t _ (some w) => goodEqsTy t && goodEqs w
  | .vfunc t _ _ => goodEqsTy t
  | .vother t _ => goodEqsTy t

def goodEqsFields : List (FieldMeta × GoVal) → Bool
  | [] => true
  | (_, v) :: rest => goodEqs v && goodEqsFields rest

def goodEqsEntries : List (GoVal × GoVal) → Bool
  | [] => true
  | (k, v) :: rest => goodEqs k && goodEqs v && goodEqsEntries rest

def goodEqsList : List GoVal → Bool
  | [] => true
  | v :: rest => goodEqs v && goodEqsList rest

end

/-- Every value stored in the heap satisfies `goodEqs`. -/
def heapGoodB : Heap → Bool
  | [] => true
  | (_, v) :: rest => goodEqs v && heapGoodB rest

/-- Erase the Equal method of a value's own type descriptor, leaving
everything else (including subvalues and their types) unchanged.  Used
to state that a failed Equal-method probe behaves exactly like the
absence of the method. -/
def stripTy (t : GoType) : GoType := { t with equalM := none }

def stripEq : GoVal → GoVal
  | .invalid => .invalid
  | .vbool t r x => .vbool (stripTy t) r x
  | .vint t r x => .vint (stripTy t) r x
  | .vuint t r x => .vuint (stripTy t) r x
  | .vfloat t r x => .vfloat (stripTy t) r x
  | .vstring t r s => .vstring (stripTy t) r s
  | .vstruct t r fs => .vstruct (stripTy t) r fs
  | .vmap t r m => .vmap (stripTy t) r m
  | .varray t r es => .varray (stripTy t) r es
  | .vslice t r s => .vslice (stripTy t) r s
  | .vptr t r a => .vptr (stripTy t) r a
  | .viface t r v => .viface (stripTy t) r v
  | .vfunc t r n => .vfunc (stripTy t) r n
  | .vother t r => .vother (stripTy t) r

/-- Top-level Equal (src/deep.go lines 82-104): handles untyped nils,
otherwise runs cmp.equals on the two reflection values and returns the
accumulated diff list.  The result is none when the fuel does not cover
the recursion depth the Go code would use. -/
def Equal (cfg : Config) (h : Heap) (fuel : Nat) (a b : Option GoVal) :
    Option (List String) :=
  let c : Cmp := {}
  match a, b with
  | none, none => some c.diff
  | none, some bv => some ((c.saveDiff "<untyped nil>" (render bv)).diff)
  | some av, none => some ((c.saveDiff (render av) "<untyped nil>").diff)
  | some av, some bv =>
      match equalsF cfg h fuel av bv 0 c with
      | none => none
      | some c2 => some c2.diff

/-! Concrete Go types used by the witnesses and counterexamples. -/

/-- Type descriptor of the built-in int type. -/
def intType : GoType := ⟨1, "int", "int", "", false, none⟩

/-- Type descriptor of the built-in string type. -/
def stringType : GoType := ⟨2, "string", "string", "", false, none⟩

/-- Type descriptor of the built-in float64 type. -/
def float64Type : GoType := ⟨3, "float64", "float64", "", false, none⟩

/-- A struct type with two exported pointer fields, used to exercise the
cycle guard on distinct pointer pairs. -/
def pairStructType : GoType := ⟨16, "main.pair", "pair", "main", false, none⟩

/-- Type descriptor of *int. -/
def intPtrType : GoType := ⟨15, "*int", "", "", false, none⟩

/-- A self-referential struct type (type ring struct \x7b Next *ring \x7d). -/
def ringType : GoType := ⟨13, "main.ring", "ring", "main", false, none⟩

/-- Type descriptor of *ring. -/
def ringPtrType : GoType := ⟨14, "*main.ring", "", "", false, none⟩

/-- A user type whose Equal method has the matching signature but
returns false on every pair, including a value and itself — expressible
in Go as a method that always returns false. -/
def badEqualType : GoType := ⟨30, "main.B", "B", "main", false, some ⟨1, 30, 1, .kbool, .always false⟩⟩

/-- Heap with two one-node rings at distinct addresses, each pointing
back to itself. -/
def ringHeap : Heap :=
  [(1, .vstruct ringType false [(⟨"Next", "", ""⟩, .vptr ringPtrType false (some 1))]),
   (2, .vstruct ringType false [(⟨"Next", "", ""⟩, .vptr ringPtrType false (some 2))])]

/-- Heap for the cycle-guard counterexample: three int cells, the third
holding a different value. -/
def pairHeap : Heap :=
  [(1, .vint intType false 10), (2, .vint intType false 10), (3, .vint intType false 99)]

/-- First comparison operand for the cycle-guard counterexample: both
fields point at cell 1. -/
def pairValA : GoVal :=
  .vstruct pairStructType false
    [(⟨"P", "", ""⟩, .vptr intPtrType false (some 1)),
     (⟨"Q", "", ""⟩, .vptr intPtrType false (some 1))]

/-- Second comparison operand: P points at cell 2 (same content as cell
1), Q at cell 3 (different content, so the pair (1, 3) holds unequal
values). -/
def pairValB : GoVal :=
  .vstruct pairStructType false
    [(⟨"P", "", ""⟩, .vptr intPtrType false (some 2)),
     (⟨"Q", "", ""⟩, .vptr intPtrType false (some 3))]

/-- Struct type behind errors.New (a struct with one unexported string
field holding the message). -/
def errStructType : GoType := ⟨20, "errors.errorString", "errorString", "errors", false, none⟩

/-- Pointer type returned by errors.New; it implements error. -/
def errPtrType : GoType := ⟨21, "*errors.errorString", "", "", true, none⟩

/-- Heap holding two errors.New-style values with different messages. -/
def errHeap : Heap :=
  [(50, .vstruct errStructType false
          [(⟨"s", "errors", ""⟩, .vstring stringType false "it broke")]),
   (51, .vstruct errStructType false
          [(⟨"s", "errors", ""⟩, .vstring stringType false "it fell apart")])]

/-- A richer error type: a struct with an exported message field and an
extra integer field that may differ between two values with the same
message. -/
def richErrType : GoType := ⟨22, "main.rich", "rich", "main", false, none⟩

/-- Pointer type to `richErrType`; it implements error. -/
def richErrPtrType : GoType := ⟨23, "*main.rich", "", "", true, none⟩

/-- Heap holding two rich error values with the same message but
structurally different second fields. -/
def richHeap : Heap :=
  [(60, .vstruct richErrType false
          [(⟨"Msg", "", ""⟩, .vstring stringType false "boom"),
           (⟨"N", "", ""⟩, .vint intType false 1)]),
   (61, .vstruct richErrType false
          [(⟨"Msg", "", ""⟩, .vstring stringType false "boom"),
           (⟨"N", "", ""⟩, .vint intType false 2)])]

/-- A user type whose Equal method has the matching signature (one
argument of the same type, one bool result) and compares payloads. -/
def goodEqualType : GoType :=
  ⟨31, "main.E", "E", "main", false, some ⟨1, 31, 1, .kbool, .payloadEq⟩⟩

/-- A user type whose Equal method takes two arguments — a signature
mismatch, so the probe must fall through to structural comparison. -/
def badSigType : GoType :=
  ⟨32, "main.F", "F", "main", false, some ⟨2, 32, 1, .kbool, .always true⟩⟩

/-- The struct type of spec scenario 3: two exported fields and one
unexported field. -/
def scen3Type : GoType := ⟨33, "main.S", "S", "main", false, none⟩

/-- Build a scenario-3 struct value. -/
def mkScen3 (nm : String) (num idv : Int) : GoVal :=
  .vstruct scen3Type false
    [(⟨"Name", "", ""⟩, .vstring stringType false nm),
     (⟨"Number", "", ""⟩, .vint intType false num),
     (⟨"id", "main", ""⟩, .vint intType false idv)]

/-- A struct type with two int fields, the second tagged deep:"-". -/
def taggedType : GoType := ⟨34, "main.T", "T", "main", false, none⟩

/-- Build a tagged-type value: Keep is compared, Skip carries the
ignored marker. -/
def mkTagged (keep skip : Int) : GoVal :=
  .vstruct taggedType false
    [(⟨"Keep", "", ""⟩, .vint intType false keep),
     (⟨"Skip", "", "-"⟩, .vint intType false skip)]

/-! Theorems. -/

/-- C9: at the top level, two untyped nils produce the empty diff list;
exactly one untyped nil produces exactly one diff pairing the other
side's default rendering with the sentinel on the nil side; the
result does not depend on the heap or on any recursion budget (even a
zero budget), so the non-nil value is never recursed into. -/
theorem c9_untypedNil (cfg : Config) (h : Heap) (fuel : Nat) :
    Equal cfg h fuel none none = some []
    ∧ (∀ bv : GoVal,
        Equal cfg h fuel none (some bv) = some ["<untyped nil> != " ++ render bv])
    ∧ (∀ av : GoVal,
        Equal cfg h fuel (some av) none = some [render av ++ " != <untyped nil>"]) := by
  refine ⟨rfl, fun bv => ?_, fun av => ?_⟩
  · rfl
  · show some [(render av ++ " != ") ++ "<untyped nil>"] = _
    rw [String.append_assoc]
    rfl

/-- C2 (code bug): with TimePrecision set to 1 microsecond (1000ns),
the durations 1000ns and 3123ns — which differ by more than the
precision and compare unequal under the default configuration — are
reported equal, because src/deep.go line 181 reads
`bFunc := a.MethodByName("Truncate")`, binding both method values to
a, so b is replaced by a's truncation rather than its own. -/
theorem c2_truncationBug_eval :
    Equal { defaultConfig with TimePrecision := 1000 } [] 10
        (some (.vint durationType false 1000)) (some (.vint durationType false 3123))
      = some []
    ∧ Equal defaultConfig [] 10
        (some (.vint durationType false 1000)) (some (.vint durationType false 3123))
      = some ["1000 != 3123"] := by
  constructor <;> rfl

/-- C1 (counterexample): the cycle guard does not key on pair identity.
Comparing \x7bP: &x1, Q: &x1\x7d against \x7bP: &x2, Q: &x3\x7d with
*x1 = *x2 = 10 and *x3 = 99 records the pair (1, 2) while comparing P,
and then skips recursion into the distinct, never-recorded pair (1, 3)
at Q — because address 1 alone is in the seen set — returning no diff
even though the values behind the pair (1, 3) differ (second conjunct).
Under the claim, recursion into (1, 3) would have happened and reported
the difference at Q. -/
theorem c1_pairGuard_counterexample :
    Equal defaultConfig pairHeap 100 (some pairValA) (some pairValB) = some []
    ∧ Equal defaultConfig pairHeap 100
        (some (.vint intType false 10)) (some (.vint intType false 99))
      = some ["10 != 99"] := by
  constructor <;> rfl

/-- Helper: under the guards, for valid same-typed values of an
error-implementing type that are either not indirect or both non-nil,
cmp.equals compares the two Error() messages, emits one diff when they
differ and none when they agree, and returns. -/
theorem equals_error_branch (cfg : Config) (h : Heap) (fuel level : Nat)
    (a b : GoVal) (c : Cmp)
    (hd : c.diff.length < cfg.MaxDiff)
    (hl : ¬(0 < cfg.MaxDepth ∧ cfg.MaxDepth < level))
    (hav : a.isValid = true) (hbv : b.isValid = true)
    (ht : a.ty = b.ty)
    (he : a.ty.implErr = true)
    (hcond : ¬(a.kindOf = GoKind.kptr ∨ a.kindOf = GoKind.kinterface)
             ∨ (a.isNil = false ∧ b.isNil = false))
    (hra : a.roOf = false) (hrb : b.roOf = false) :
    equalsF cfg h (fuel + 1) a b level c =
      some (if errorMsgOf h a ≠ errorMsgOf h b
            then c.saveDiff (errorMsgOf h a) (errorMsgOf h b) else c) := by
  simp only [equalsF]
  rw [if_neg (by omega), if_neg hl, if_neg (by simp [hav, hbv]),
      if_neg (by simp [ht]), if_pos ⟨he, hcond, hra, hrb⟩]

/-- C5: when the shared type implements the error interface and the
Error method is interface-accessible (the values were not reached
through unexported fields), then — for values that are not indirect, or
indirections that are both non-nil — the engine compares only the two
Error() strings, emits exactly one diff when they differ and none when
they match, and returns without recursing further (first conjunct: the
resulting context is exact, so nothing else is traversed or emitted).
Second conjunct: when both sides are typed-nil indirections (pointer or
interface) of such a type, no diff is emitted.  The truncation step,
irrelevant to this claim, is pinned off by TimePrecision = 0 in the
nil case. -/
theorem c5_errorCapability (cfg : Config) (h : Heap) (fuel level : Nat) (c : Cmp)
    (hd : c.diff.length < cfg.MaxDiff)
    (hl : ¬(0 < cfg.MaxDepth ∧ cfg.MaxDepth < level)) :
    (∀ a b : GoVal, a.isValid = true → b.isValid = true → a.ty = b.ty →
      a.ty.implErr = true →
      (¬(a.kindOf = GoKind.kptr ∨ a.kindOf = GoKind.kinterface)
        ∨ (a.isNil = false ∧ b.isNil = false)) →
      a.roOf = false → b.roOf = false →
      equalsF cfg h (fuel + 1) a b level c =
        some (if errorMsgOf h a ≠ errorMsgOf h b
              then c.saveDiff (errorMsgOf h a) (errorMsgOf h b) else c))
    ∧ (cfg.TimePrecision = 0 →
       ∀ (t : GoType) (ra rb : Bool), t.implErr = true → t.equalM = none →
         equalsF cfg h (fuel + 1) (.vptr t ra none) (.vptr t rb none) level c = some c
         ∧ equalsF cfg h (fuel + 1) (.viface t ra none) (.viface t rb none) level c
             = some c) := by
  constructor
  · intro a b hav hbv ht he hcond hra hrb
    exact equals_error_branch cfg h fuel level a b c hd hl hav hbv ht he hcond hra hrb
  · intro htp t ra rb _himpl hm
    constructor
    · simp only [equalsF]
      rw [if_neg (by omega), if_neg hl, if_neg (by simp [GoVal.isValid]),
          if_neg (by simp [GoVal.ty]),
          if_neg (by simp [GoVal.kindOf, GoVal.isNil]),
          if_neg (by simp [htp]), if_neg (by simp [htp])]
      simp [GoVal.ty, hm, equalsRest, GoVal.kindOf, GoVal.isNil]
    · simp only [equalsF]
      rw [if_neg (by omega), if_neg hl, if_neg (by simp [GoVal.isValid]),
          if_neg (by simp [GoVal.ty]),
          if_neg (by simp [GoVal.kindOf, GoVal.isNil]),
          if_neg (by simp [htp]), if_neg (by simp [htp])]
      simp [GoVal.ty, hm, equalsRest, GoVal.kindOf, GoVal.isNil]

/-- C10: for two non-nil, same-typed, valid values of a type that
implements the error interface with an interface-accessible Error
method, equal Error() strings make the engine return with no diff for
the subtree — the returned context is exactly the input context, so the
values' internal structure is never traversed, regardless of any
structural differences in their fields. -/
theorem c10_errorShortCircuit (cfg : Config) (h : Heap) (fuel level : Nat)
    (a b : GoVal) (c : Cmp)
    (hd : c.diff.length < cfg.MaxDiff)
    (hl : ¬(0 < cfg.MaxDepth ∧ cfg.MaxDepth < level))
    (hav : a.isValid = true) (hbv : b.isValid = true)
    (ht : a.ty = b.ty)
    (he : a.ty.implErr = true)
    (hna : a.isNil = false) (hnb : b.isNil = false)
    (hra : a.roOf = false) (hrb : b.roOf = false)
    (hmsg : errorMsgOf h a = errorMsgOf h b) :
    equalsF cfg h (fuel + 1) a b level c = some c := by
  rw [equals_error_branch cfg h fuel level a b c hd hl hav hbv ht he
        (Or.inr ⟨hna, hnb⟩) hra hrb]
  simp [hmsg]

/-- Stripping the Equal method changes nothing a type-agnostic reader
can observe. -/
theorem stripEq_ty (v : GoVal) : (stripEq v).ty = stripTy v.ty := by
  cases v <;> rfl

theorem stripTy_str (t : GoType) : (stripTy t).str = t.str := rfl

theorem stripTy_implErr (t : GoType) : (stripTy t).implErr = t.implErr := rfl

theorem stripTy_equalM (t : GoType) : (stripTy t).equalM = none := rfl

theorem stripEq_isValid (v : GoVal) : (stripEq v).isValid = v.isValid := by
  cases v <;> rfl

theorem stripEq_kindOf (v : GoVal) : (stripEq v).kindOf = v.kindOf := by
  cases v <;> rfl

theorem stripEq_roOf (v : GoVal) : (stripEq v).roOf = v.roOf := by
  cases v <;> rfl

theorem stripEq_isNil (v : GoVal) : (stripEq v).isNil = v.isNil := by
  cases v <;> try rfl
  case vmap t r m => cases m <;> rfl
  case vslice t r s => cases s <;> rfl
  case vptr t r a => cases a <;> rfl
  case viface t r w => cases w <;> rfl

theorem stripEq_ptrOf (v : GoVal) : (stripEq v).ptrOf = v.ptrOf := by
  cases v <;> try rfl
  case vptr t r a => cases a <;> rfl

theorem stripEq_mapPtr (v : GoVal) : (stripEq v).mapPtr = v.mapPtr := by
  cases v <;> try rfl
  case vmap t r m => rcases m with _ | ⟨p, es⟩ <;> rfl

theorem stripEq_mapEntries (v : GoVal) : (stripEq v).mapEntries = v.mapEntries := by
  cases v <;> try rfl
  case vmap t r m => rcases m with _ | ⟨p, es⟩ <;> rfl

theorem stripEq_mapLen (v : GoVal) : (stripEq v).mapLen = v.mapLen := by
  simp [GoVal.mapLen, stripEq_mapEntries]

theorem stripEq_slicePtr (v : GoVal) : (stripEq v).slicePtr = v.slicePtr := by
  cases v <;> try rfl
  case vslice t r s => rcases s with _ | ⟨p, es⟩ <;> rfl

theorem stripEq_sliceElems (v : GoVal) : (stripEq v).sliceElems = v.sliceElems := by
  cases v <;> try rfl
  case vslice t r s => rcases s with _ | ⟨p, es⟩ <;> rfl

theorem stripEq_sliceLen (v : GoVal) : (stripEq v).sliceLen = v.sliceLen := by
  simp [GoVal.sliceLen, stripEq_sliceElems]

theorem stripEq_fieldsOf (v : GoVal) : (stripEq v).fieldsOf = v.fieldsOf := by
  cases v <;> rfl

theorem stripEq_arrayElems (v : GoVal) : (stripEq v).arrayElems = v.arrayElems := by
  cases v <;> rfl

theorem stripEq_boolPayload (v : GoVal) : (stripEq v).boolPayload = v.boolPayload := by
  cases v <;> rfl

theorem stripEq_intPayload (v : GoVal) : (stripEq v).intPayload = v.intPayload := by
  cases v <;> rfl

theorem stripEq_uintPayload (v : GoVal) : (stripEq v).uintPayload = v.uintPayload := by
  cases v <;> rfl

theorem stripEq_floatPayload (v : GoVal) : (stripEq v).floatPayload = v.floatPayload := by
  cases v <;> rfl

theorem stripEq_strPayload (v : GoVal) : (stripEq v).strPayload = v.strPayload := by
  cases v <;> rfl

theorem stripEq_funcIsNil (v : GoVal) : (stripEq v).funcIsNil = v.funcIsNil := by
  cases v <;> rfl

theorem render_stripEq (v : GoVal) : render (stripEq v) = render v := by
  cases v <;> try rfl
  case vmap t r m => rcases m with _ | ⟨p, es⟩ <;> rfl
  case vslice t r s => rcases s with _ | ⟨p, es⟩ <;> rfl
  case vptr t r a => cases a <;> rfl
  case viface t r w => cases w <;> rfl

theorem resolveIface_stripEq_str (v : GoVal) :
    (resolveIface (stripEq v)).ty.str = (resolveIface v).ty.str := by
  cases v <;> try rfl
  case viface t r w => cases w <;> rfl

theorem elemOf_stripEq (h : Heap) (v : GoVal) : elemOf h (stripEq v) = elemOf h v := by
  cases v <;> try rfl
  case vptr t r a => cases a <;> rfl
  case viface t r w => cases w <;> rfl

theorem errorMsgOf_stripEq (h : Heap) (v : GoVal) :
    errorMsgOf h (stripEq v) = errorMsgOf h v := by
  cases v <;> try rfl
  case vptr t r a => cases a <;> rfl
  case viface t r w => cases w <;> rfl

/-- The continuation of cmp.equals after the capability probes never
consults the Equal method, so stripping it from the top-level types of
both operands does not change the result. -/
theorem equalsRest_strip (cfg : Config) (h : Heap) (rec : RecFn)
    (a b : GoVal) (level : Nat) (c : Cmp) :
    equalsRest cfg h rec (stripEq a) (stripEq b) level c
      = equalsRest cfg h rec a b level c := by
  simp only [equalsRest,
    stripEq_isNil, stripEq_kindOf, stripEq_roOf, stripEq_mapPtr,
    stripEq_mapEntries, stripEq_mapLen, stripEq_slicePtr,
    stripEq_sliceElems, stripEq_sliceLen, stripEq_fieldsOf,
    stripEq_arrayElems, stripEq_boolPayload, stripEq_intPayload,
    stripEq_uintPayload, stripEq_floatPayload, stripEq_strPayload,
    stripEq_funcIsNil, stripEq_ptrOf, render_stripEq,
    resolveIface_stripEq_str, elemOf_stripEq]
  cases a <;> simp only [stripEq]

/-- C6: the user Equal probe.  First conjunct: when the type's Equal
method is interface-accessible and takes exactly one argument whose
type equals the compared type and returns exactly one boolean-kinded
result, the method is invoked in place of structural comparison — one
diff is emitted iff the call returns false, and the returned context
shows no recursion into the value happened.  Second conjunct: any
failure of those conditions (read-only receiver or any signature
mismatch) makes the engine behave exactly as if the method were absent,
falling through to normal structural comparison without aborting.  The
truncation step, irrelevant here, is pinned off by TimePrecision = 0;
the error capability branch is excluded by the type not implementing
error, since it precedes the probe. -/
theorem c6_userEqualProbe (cfg : Config) (h : Heap) (fuel level : Nat)
    (a b : GoVal) (c : Cmp)
    (hd : c.diff.length < cfg.MaxDiff)
    (hl : ¬(0 < cfg.MaxDepth ∧ cfg.MaxDepth < level))
    (hav : a.isValid = true) (hbv : b.isValid = true)
    (ht : a.ty = b.ty)
    (himpl : a.ty.implErr = false)
    (htp : cfg.TimePrecision = 0) :
    (∀ m : EqualMeta, a.ty.equalM = some m → a.roOf = false →
      m.numIn = 1 → m.arg0 = b.ty.id → m.numOut = 1 → m.out0 = GoKind.kbool →
      equalsF cfg h (fuel + 1) a b level c =
        some (if runEqualSpec m.spec a b then c
              else c.saveDiff (render a) (render b)))
    ∧ (∀ m : EqualMeta, a.ty.equalM = some m →
      ¬(a.roOf = false ∧ m.numIn = 1 ∧ m.arg0 = b.ty.id ∧ m.numOut = 1
        ∧ m.out0 = GoKind.kbool) →
      equalsF cfg h (fuel + 1) a b level c
        = equalsF cfg h (fuel + 1) (stripEq a) (stripEq b) level c) := by
  constructor
  · intro m hm hro hn1 harg hn2 hout
    simp only [equalsF]
    rw [if_neg (by omega), if_neg hl, if_neg (by simp [hav, hbv]),
        if_neg (by simp [ht]), if_neg (by simp [himpl]),
        if_neg (by simp [htp]), if_neg (by simp [htp]), hm]
    simp [hro, hn1, harg, hn2, hout]
  · intro m hm hsig
    have hLHS : equalsF cfg h (fuel + 1) a b level c
        = equalsRest cfg h (equalsF cfg h fuel) a b level c := by
      simp only [equalsF]
      rw [if_neg (by omega), if_neg hl, if_neg (by simp [hav, hbv]),
          if_neg (by simp [ht]), if_neg (by simp [himpl]),
          if_neg (by simp [htp]), if_neg (by simp [htp]), hm]
      simp [hsig]
    have hm2 : (stripEq a).ty.equalM = none := by
      rw [stripEq_ty, stripTy_equalM]
    have hRHS : equalsF cfg h (fuel + 1) (stripEq a) (stripEq b) level c
        = equalsRest cfg h (equalsF cfg h fuel) (stripEq a) (stripEq b) level c := by
      simp only [equalsF]
      rw [if_neg (by omega), if_neg hl,
          if_neg (by simp [stripEq_isValid, hav, hbv]),
          if_neg (by simp [stripEq_ty, ht]),
          if_neg (by simp [stripEq_ty, stripTy_implErr, himpl]),
          if_neg (by simp [htp]), if_neg (by simp [htp]), hm2]
    rw [hLHS, hRHS, equalsRest_strip]

/-- C1 (amended): the cycle guard keys on single-side address
membership, not on pair identity.  First conjunct: descending through
two non-nil pointers is skipped exactly when either side's address is
already in the seen set (so a recorded pair (p, q) also suppresses any
later pair sharing p or q); otherwise both addresses are recorded and
the dereferenced values are compared at depth + 1.  Second conjunct:
recording a pair records the two addresses individually.  Third
conjunct: isomorphic cyclic graphs with distinct node identities still
terminate with no diff (two self-referential one-node rings). -/
theorem c1_singleAddressGuard (cfg : Config) (h : Heap) (fuel level : Nat)
    (t : GoType) (ra rb : Bool) (pa pb : Nat) (c : Cmp)
    (hd : c.diff.length < cfg.MaxDiff)
    (hl : ¬(0 < cfg.MaxDepth ∧ cfg.MaxDepth < level))
    (himpl : t.implErr = false)
    (htp : cfg.TimePrecision = 0)
    (hm : t.equalM = none) :
    (equalsF cfg h (fuel + 1) (.vptr t ra (some pa)) (.vptr t rb (some pb)) level c =
       if pa ∈ c.seen ∨ pb ∈ c.seen then some c
       else equalsF cfg h fuel (elemOf h (.vptr t ra (some pa)))
              (elemOf h (.vptr t rb (some pb))) (level + 1) (c.saw pa pb))
    ∧ (∀ p q : Nat, (c.saw p q).seen = c.seen ++ [p, q])
    ∧ Equal defaultConfig ringHeap 100
        (some (.vptr ringPtrType false (some 1)))
        (some (.vptr ringPtrType false (some 2))) = some [] := by
  refine ⟨?_, fun p q => rfl, by rfl⟩
  simp only [equalsF]
  rw [if_neg (by omega), if_neg hl, if_neg (by simp [GoVal.isValid]),
      if_neg (by simp [GoVal.ty]),
      if_neg (by simp [GoVal.ty, himpl]),
      if_neg (by simp [htp]), if_neg (by simp [htp])]
  have hmm : (GoVal.vptr t ra (some pa)).ty.equalM = none := hm
  rw [hmm]
  simp [equalsRest, GoVal.kindOf, GoVal.isNil, GoVal.ptrOf, Cmp.haveSeen]

/-- C7: for two float values of identical type, no diff is reported iff
the raw IEEE values are equal or the fixed-point renderings with
FloatPrecision decimal places coincide, and a reported diff carries the
default (%v) renderings (first conjunct).  In particular: a positive
and a negative zero compare equal (second conjunct), NaN compares equal
to NaN (third), and 1.1234561 vs 1.1234562 yields no diff at
FloatPrecision 6 (fourth) but yields "1.1234561 != 1.1234562" at the
default FloatPrecision 10 (fifth). -/
theorem c7_floatComparison (cfg : Config) (h : Heap) (fuel level : Nat)
    (t : GoType) (ra rb : Bool) (x y : GoFloat) (c : Cmp)
    (hd : c.diff.length < cfg.MaxDiff)
    (hl : ¬(0 < cfg.MaxDepth ∧ cfg.MaxDepth < level))
    (himpl : t.implErr = false)
    (htp : cfg.TimePrecision = 0)
    (hm : t.equalM = none) :
    (equalsF cfg h (fuel + 1) (.vfloat t ra x) (.vfloat t rb y) level c =
       some (if feq x y = true
                ∨ fixedFormat cfg.FloatPrecision x = fixedFormat cfg.FloatPrecision y
             then c else c.saveDiff x.rend y.rend))
    ∧ Equal defaultConfig [] 9
        (some (.vfloat float64Type false (.fin false 0 1 "0")))
        (some (.vfloat float64Type false (.fin true 0 1 "-0"))) = some []
    ∧ Equal defaultConfig [] 9
        (some (.vfloat float64Type false .nan))
        (some (.vfloat float64Type false .nan)) = some []
    ∧ Equal { defaultConfig with FloatPrecision := 6 } [] 9
        (some (.vfloat float64Type false (.fin false 11234561 10000000 "1.1234561")))
        (some (.vfloat float64Type false (.fin false 11234562 10000000 "1.1234562")))
      = some []
    ∧ Equal defaultConfig [] 9
        (some (.vfloat float64Type false (.fin false 11234561 10000000 "1.1234561")))
        (some (.vfloat float64Type false (.fin false 11234562 10000000 "1.1234562")))
      = some ["1.1234561 != 1.1234562"] := by
  refine ⟨?_, by rfl, by rfl, by rfl, by rfl⟩
  simp only [equalsF]
  rw [if_neg (by omega), if_neg hl, if_neg (by simp [GoVal.isValid]),
      if_neg (by simp [GoVal.ty]),
      if_neg (by simp [GoVal.ty, himpl]),
      if_neg (by simp [htp]), if_neg (by simp [htp])]
  have hmm : (GoVal.vfloat t ra x).ty.equalM = none := hm
  rw [hmm]
  simp only [equalsRest, GoVal.kindOf, GoVal.floatPayload]
  by_cases hfe : feq x y = true
  · simp [hfe, render]
  · by_cases hff : fixedFormat cfg.FloatPrecision x = fixedFormat cfg.FloatPrecision y
    · simp [hfe, hff, render]
    · simp [hfe, hff, render]

/-- Bookkeeping facts about the comparison context. -/
theorem saveDiff_diff (c : Cmp) (a b : String) :
    (c.saveDiff a b).diff = c.diff ++ [formatDiff c.buff a b] := rfl

theorem saveDiff_len (c : Cmp) (a b : String) :
    (c.saveDiff a b).diff.length = c.diff.length + 1 := by
  simp [Cmp.saveDiff]

theorem prefixDiff_len (c : Cmp) (p a b : String) :
    (c.prefixDiff p a b).diff.length = c.diff.length + 1 := by
  simp [Cmp.prefixDiff]

theorem push_diff (c : Cmp) (n : String) : (c.push n).diff = c.diff := rfl

theorem pop_diff (c : Cmp) : c.pop.diff = c.diff := rfl

theorem saw_diff (c : Cmp) (p q : Nat) : (c.saw p q).diff = c.diff := rfl

/-- A rec-continuation maintains the MaxDiff bound. -/
def RecBound (md : Nat) (rec : RecFn) : Prop :=
  ∀ a b level c c2, c.diff.length ≤ md → rec a b level c = some c2 →
    c2.diff.length ≤ md

theorem sliceTailA_bound (md : Nat) :
    ∀ (l : List GoVal) (i : Nat) (c : Cmp), c.diff.length ≤ md →
      (sliceTailA md i l c).diff.length ≤ md := by
  intro l
  induction l with
  | nil => intro i c hc; simpa [sliceTailA] using hc
  | cons v rest ih =>
      intro i c hc
      simp only [sliceTailA]
      split
      · exact hc
      · apply ih
        rename_i hlt
        simp only [prefixDiff_len]
        omega

theorem sliceTailB_bound (md : Nat) :
    ∀ (l : List GoVal) (i : Nat) (c : Cmp), c.diff.length ≤ md →
      (sliceTailB md i l c).diff.length ≤ md := by
  intro l
  induction l with
  | nil => intro i c hc; simpa [sliceTailB] using hc
  | cons v rest ih =>
      intro i c hc
      simp only [sliceTailB]
      split
      · exact hc
      · apply ih
        rename_i hlt
        simp only [prefixDiff_len]
        omega

theorem mapLoopB_bound (md : Nat) (aEs : List (GoVal × GoVal)) :
    ∀ (l : List (GoVal × GoVal)) (c : Cmp), c.diff.length ≤ md →
      (mapLoopB md aEs l c).diff.length ≤ md := by
  intro l
  induction l with
  | nil => intro c hc; simpa [mapLoopB] using hc
  | cons kv rest ih =>
      intro c hc
      obtain ⟨k, bv⟩ := kv
      simp only [mapLoopB]
      split
      · exact hc
      · rename_i hlt
        cases hfind : mapLookup aEs k with
        | some w => simpa [hfind] using ih c hc
        | none =>
            simp only [hfind]
            apply ih
            simp only [prefixDiff_len]
            omega

theorem structLoop_bound (cfg : Config) (rec : RecFn) (aRO bRO : Bool)
    (hrec : RecBound cfg.MaxDiff rec) :
    ∀ (fs : List (FieldMeta × GoVal)) (bvs : List GoVal) (level : Nat)
      (c c2 : Cmp), c.diff.length ≤ cfg.MaxDiff →
      structLoop cfg rec aRO bRO fs bvs level c = some c2 →
      c2.diff.length ≤ cfg.MaxDiff := by
  intro fs
  induction fs with
  | nil =>
      intro bvs level c c2 hc he
      simp only [structLoop] at he
      cases he
      exact hc
  | cons f rest ih =>
      intro bvs level c c2 hc he
      obtain ⟨m, av⟩ := f
      simp only [structLoop] at he
      split at he
      · cases he; exact hc
      · split at he
        · exact ih _ _ _ _ hc he
        · split at he
          · exact ih _ _ _ _ hc he
          · cases hr : rec (orRO (aRO || m.fpkgPath != "") av)
                (orRO (bRO || m.fpkgPath != "") (bvs.headD .invalid))
                (level + 1) (c.push m.fname) with
            | none => rw [hr] at he; cases he
            | some c3 =>
                rw [hr] at he
                have h3 : c3.diff.length ≤ cfg.MaxDiff :=
                  hrec _ _ _ _ _ (by simpa [push_diff] using hc) hr
                exact ih _ _ _ _ (by simpa [pop_diff] using h3) he

theorem arrayLoop_bound (cfg : Config) (rec : RecFn) (aRO bRO : Bool)
    (hrec : RecBound cfg.MaxDiff rec) :
    ∀ (es : List GoVal) (i : Nat) (bvs : List GoVal) (level : Nat)
      (c c2 : Cmp), c.diff.length ≤ cfg.MaxDiff →
      arrayLoop cfg rec aRO bRO i es bvs level c = some c2 →
      c2.diff.length ≤ cfg.MaxDiff := by
  intro es
  induction es with
  | nil =>
      intro i bvs level c c2 hc he
      simp only [arrayLoop] at he
      cases he
      exact hc
  | cons v rest ih =>
      intro i bvs level c c2 hc he
      simp only [arrayLoop] at he
      split at he
      · cases he; exact hc
      · cases hr : rec (orRO aRO v) (orRO bRO (bvs.headD .invalid)) (level + 1)
            (c.push ("array[" ++ toString i ++ "]")) with
        | none => rw [hr] at he; cases he
        | some c3 =>
            rw [hr] at he
            have h3 : c3.diff.length ≤ cfg.MaxDiff :=
              hrec _ _ _ _ _ (by simpa [push_diff] using hc) hr
            exact ih _ _ _ _ _ (by simpa [pop_diff] using h3) he

theorem sliceLoopEls_bound (cfg : Config) (rec : RecFn) (aRO bRO : Bool)
    (hrec : RecBound cfg.MaxDiff rec) :
    ∀ (es bvs : List GoVal) (i : Nat) (level : Nat)
      (c c2 : Cmp), c.diff.length ≤ cfg.MaxDiff →
      sliceLoopEls cfg rec aRO bRO i es bvs level c = some c2 →
      c2.diff.length ≤ cfg.MaxDiff := by
  intro es
  induction es with
  | nil =>
      intro bvs i level c c2 hc he
      simp only [sliceLoopEls] at he
      cases he
      exact hc
  | cons v rest ih =>
      intro bvs i level c c2 hc he
      cases bvs with
      | nil =>
          simp only [sliceLoopEls] at he
          cases he
          exact hc
      | cons bv brest =>
          simp only [sliceLoopEls] at he
          split at he
          · cases he; exact hc
          · cases hr : rec (orRO aRO v) (orRO bRO bv) (level + 1)
                (c.push ("slice[" ++ toString i ++ "]")) with
            | none => rw [hr] at he; cases he
            | some c3 =>
                rw [hr] at he
                have h3 : c3.diff.length ≤ cfg.MaxDiff :=
                  hrec _ _ _ _ _ (by simpa [push_diff] using hc) hr
                exact ih _ _ _ _ _ (by simpa [pop_diff] using h3) he

theorem mapLoopA_bound (cfg : Config) (rec : RecFn) (aRO bRO : Bool)
    (bEs : List (GoVal × GoVal)) (hrec : RecBound cfg.MaxDiff rec) :
    ∀ (l : List (GoVal × GoVal)) (level : Nat) (c c2 : Cmp),
      c.diff.length ≤ cfg.MaxDiff →
      mapLoopA cfg rec aRO bRO bEs l level c = some c2 →
      c2.diff.length ≤ cfg.MaxDiff := by
  intro l
  induction l with
  | nil =>
      intro level c c2 hc he
      simp only [mapLoopA] at he
      cases he
      exact hc
  | cons kv rest ih =>
      intro level c c2 hc he
      obtain ⟨k, av⟩ := kv
      simp only [mapLoopA] at he
      split at he
      · cases he; exact hc
      · rename_i hlt
        cases hfind : mapLookup bEs k with
        | none =>
            simp only [hfind] at he
            apply ih _ _ _ _ he
            simp only [prefixDiff_len]
            omega
        | some bv =>
            simp only [hfind] at he
            cases hr : rec (orRO aRO av) (orRO bRO bv) (level + 1)
                (c.push ("map[" ++ render k ++ "]")) with
            | none => rw [hr] at he; cases he
            | some c3 =>
                rw [hr] at he
                have h3 : c3.diff.length ≤ cfg.MaxDiff :=
                  hrec _ _ _ _ _ (by simpa [push_diff] using hc) hr
                exact ih _ _ _ (by simpa [pop_diff] using h3) he

/-- A nil-testing value has no map entries. -/
theorem isNil_mapEntries : ∀ v : GoVal, v.isNil = true → v.mapEntries = [] := by
  intro v hv
  cases v <;> try rfl
  case vmap t r m =>
    cases m with
    | none => rfl
    | some pe => simp [GoVal.isNil] at hv

/-- A nil-testing value has no slice elements. -/
theorem isNil_sliceElems : ∀ v : GoVal, v.isNil = true → v.sliceElems = [] := by
  intro v hv
  cases v <;> try rfl
  case vslice t r s =>
    cases s with
    | none => rfl
    | some pe => simp [GoVal.isNil] at hv

/-- Bound for one guarded emission. -/
theorem ite_save_bound (P : Prop) [Decidable P] (c : Cmp) (x y : String)
    (md : Nat) (hc : c.diff.length < md) :
    (if P then c.saveDiff x y else c).diff.length ≤ md := by
  split
  · simp only [saveDiff_len]; omega
  · omega

/-- Bound for the two-sided nil emission shape, whose guards are
mutually exclusive. -/
theorem ite_save2_bound (P Q : Prop) [Decidable P] [Decidable Q]
    (hexcl : ¬(P ∧ Q)) (c : Cmp) (x y z w : String) (md : Nat)
    (hc : c.diff.length < md) :
    (if Q then (if P then c.saveDiff x y else c).saveDiff z w
     else (if P then c.saveDiff x y else c)).diff.length ≤ md := by
  by_cases hp : P
  · rw [if_pos hp, if_neg (fun hq => hexcl ⟨hp, hq⟩)]
    simp only [saveDiff_len]; omega
  · rw [if_neg hp]
    split
    · simp only [saveDiff_len]; omega
    · omega

/-- The post-probe continuation maintains the MaxDiff bound: entered
with strictly fewer diffs than the cap, it returns at most MaxDiff
diffs (each unguarded emission site appends at most one diff, and the
walkers re-check the cap at every step). -/
theorem equalsRest_bound (cfg : Config) (h : Heap) (rec : RecFn)
    (hrec : RecBound cfg.MaxDiff rec) :
    ∀ (a b : GoVal) (level : Nat) (c c2 : Cmp),
      c.diff.length < cfg.MaxDiff →
      equalsRest cfg h rec a b level c = some c2 →
      c2.diff.length ≤ cfg.MaxDiff := by
  intro a b level c c2 hc he
  cases a <;> simp only [equalsRest, GoVal.kindOf, reduceCtorEq, or_self, if_false,
      false_or, or_false, if_true] at he
  case invalid => cases he; omega
  case vbool t r x =>
    cases he
    exact ite_save_bound _ _ _ _ _ hc
  case vint t r x =>
    cases he
    exact ite_save_bound _ _ _ _ _ hc
  case vuint t r x =>
    cases he
    exact ite_save_bound _ _ _ _ _ hc
  case vstring t r s =>
    cases he
    exact ite_save_bound _ _ _ _ _ hc
  case vother t r => cases he; omega
  case vfloat t r x =>
    split at he
    · cases he; omega
    · cases he
      exact ite_save_bound _ _ _ _ _ hc
  case vstruct t r fs =>
    exact structLoop_bound cfg rec r _ hrec fs _ level c c2 (by omega) he
  case varray t r es =>
    exact arrayLoop_bound cfg rec r _ hrec es 0 _ level c c2 (by omega) he
  case vfunc t r n =>
    split at he
    · split at he
      · rename_i hor
        cases he
        refine ite_save2_bound _ _ ?_ _ _ _ _ _ _ hc
        rintro ⟨h1, h2⟩
        rcases hor with h3 | h3
        · rw [h3] at h1; cases h1
        · rw [h3] at h2; cases h2
      · cases he
        simp only [saveDiff_len]; omega
    · cases he; omega
  case vptr t r ad =>
    split at he
    · rename_i hor
      cases he
      refine ite_save2_bound _ _ ?_ _ _ _ _ _ _ hc
      rintro ⟨h1, h2⟩
      rcases hor with h3 | h3
      · rw [h3] at h1; cases h1
      · rw [h3] at h2; cases h2
    · split at he
      · cases he; omega
      · exact hrec _ _ _ _ _ (show (c.saw _ _).diff.length ≤ cfg.MaxDiff from le_of_lt hc) he
  case viface t r w =>
    split at he
    · rename_i hor
      cases he
      refine ite_save2_bound _ _ ?_ _ _ _ _ _ _ hc
      rintro ⟨h1, h2⟩
      rcases hor with h3 | h3
      · rw [h3] at h1; cases h1
      · rw [h3] at h2; cases h2
    · exact hrec _ _ _ _ _ (le_of_lt hc) he
  case vmap t r m =>
    split at he
    · rename_i hor
      split at he
      · cases he
        refine ite_save2_bound _ _ ?_ _ _ _ _ _ _ hc
        rintro ⟨h1, h2⟩
        rcases hor with h3 | h3
        · exact h2 (by simp [GoVal.mapLen, isNil_mapEntries _ h3])
        · exact h1 (by simp [GoVal.mapLen, isNil_mapEntries _ h3])
      · cases he
        refine ite_save2_bound _ _ ?_ _ _ _ _ _ _ hc
        rintro ⟨h1, h2⟩
        rcases hor with h3 | h3
        · rw [h3] at h2; cases h2
        · rw [h3] at h1; cases h1
    · split at he
      · cases he; omega
      · cases hA : mapLoopA cfg rec r b.roOf b.mapEntries
            (GoVal.vmap t r m).mapEntries level c with
        | none => rw [hA] at he; cases he
        | some c3 =>
            rw [hA] at he
            cases he
            have h3 : c3.diff.length ≤ cfg.MaxDiff :=
              mapLoopA_bound cfg rec r _ _ hrec _ level c c3 (le_of_lt hc) hA
            exact mapLoopB_bound cfg.MaxDiff _ _ c3 h3
  case vslice t r s =>
    split at he
    · rename_i hor
      split at he
      · cases he
        refine ite_save2_bound _ _ ?_ _ _ _ _ _ _ hc
        rintro ⟨h1, h2⟩
        rcases hor with h3 | h3
        · exact h2 (by simp [GoVal.sliceLen, isNil_sliceElems _ h3])
        · exact h1 (by simp [GoVal.sliceLen, isNil_sliceElems _ h3])
      · cases he
        refine ite_save2_bound _ _ ?_ _ _ _ _ _ _ hc
        rintro ⟨h1, h2⟩
        rcases hor with h3 | h3
        · rw [h3] at h2; cases h2
        · rw [h3] at h1; cases h1
    · cases hS : (if (GoVal.vslice t r s).slicePtr ≠ b.slicePtr then
            sliceLoopEls cfg rec r b.roOf 0 (GoVal.vslice t r s).sliceElems
              b.sliceElems level c
          else some c) with
      | none => rw [hS] at he; cases he
      | some c3 =>
          rw [hS] at he
          cases he
          have h3 : c3.diff.length ≤ cfg.MaxDiff := by
            split at hS
            · exact sliceLoopEls_bound cfg rec r _ hrec _ _ 0 level c c3 (le_of_lt hc) hS
            · cases hS; omega
          exact sliceTailB_bound cfg.MaxDiff _ _ _
            (sliceTailA_bound cfg.MaxDiff _ _ _ h3)

/-- cmp.equals maintains the MaxDiff bound: if the diff list is within
the cap on entry it is within the cap on exit. -/
theorem equalsF_bound (cfg : Config) (h : Heap) :
    ∀ (fuel : Nat) (a b : GoVal) (level : Nat) (c c2 : Cmp),
      c.diff.length ≤ cfg.MaxDiff →
      equalsF cfg h fuel a b level c = some c2 →
      c2.diff.length ≤ cfg.MaxDiff := by
  intro fuel
  induction fuel with
  | zero => intro a b level c c2 hc he; cases he
  | succ fuel ih =>
      intro a b level c c2 hc he
      simp only [equalsF] at he
      split at he
      · cases he; exact hc
      · rename_i hlt
        split at he
        · cases he; exact hc
        · split at he
          · cases he
            split
            · simp only [saveDiff_len]; omega
            · split
              · simp only [saveDiff_len]; omega
              · omega
          · split at he
            · cases he
              split <;> simp only [saveDiff_len] <;> omega
            · split at he
              · cases he
                split
                · simp only [saveDiff_len]; omega
                · omega
              · generalize (if 0 < cfg.TimePrecision
                      ∧ (a.ty = timeType ∨ a.ty = durationType) ∧ a.roOf = false
                    then runTruncate cfg.TimePrecision a else a) = a1 at he
                generalize (if 0 < cfg.TimePrecision
                      ∧ (a.ty = timeType ∨ a.ty = durationType) ∧ a.roOf = false
                    then runTruncate cfg.TimePrecision a else b) = b1 at he
                split at he
                · split at he
                  · cases he
                    split
                    · omega
                    · simp only [saveDiff_len]; omega
                  · exact equalsRest_bound cfg h _ (fun x y l d d2 => ih x y l d d2)
                      _ _ _ _ _ (by omega) he
                · exact equalsRest_bound cfg h _ (fun x y l d d2 => ih x y l d d2)
                    _ _ _ _ _ (by omega) he

/-- C4: the MaxDiff bound.  First conjunct: at every entry and exit of
the recursive comparison, if the accumulated diff list is within
MaxDiff it stays within MaxDiff — the invariant holding at every
observable point.  Second conjunct: for every pair of inputs, whenever
MaxDiff is positive the list returned by Equal has length at most
MaxDiff. -/
theorem c4_maxDiffBound (cfg : Config) (h : Heap) (hpos : 0 < cfg.MaxDiff) :
    (∀ (fuel : Nat) (a b : GoVal) (level : Nat) (c c2 : Cmp),
       c.diff.length ≤ cfg.MaxDiff →
       equalsF cfg h fuel a b level c = some c2 →
       c2.diff.length ≤ cfg.MaxDiff)
    ∧ (∀ (fuel : Nat) (a b : Option GoVal) (r : List String),
        Equal cfg h fuel a b = some r → r.length ≤ cfg.MaxDiff) := by
  refine ⟨fun fuel => equalsF_bound cfg h fuel, ?_⟩
  intro fuel a b r he
  cases a with
  | none =>
      cases b with
      | none =>
          simp only [Equal] at he
          cases he
          simp
      | some bv =>
          simp only [Equal] at he
          cases he
          simpa using hpos
  | some av =>
      cases b with
      | none =>
          simp only [Equal] at he
          cases he
          simpa using hpos
      | some bv =>
          simp only [Equal] at he
          cases heq : equalsF cfg h fuel av bv 0 {} with
          | none => rw [heq] at he; cases he
          | some c2 =>
              rw [heq] at he
              cases he
              exact equalsF_bound cfg h fuel av bv 0 {} c2 (by simp) heq

mutual

theorem valEqB_refl : ∀ v : GoVal, valEqB v v = true
  | .invalid => by simp [valEqB]
  | .vbool t r x => by simp [valEqB]
  | .vint t r x => by simp [valEqB]
  | .vuint t r x => by simp [valEqB]
  | .vfloat t r x => by simp [valEqB]
  | .vstring t r s => by simp [valEqB]
  | .vstruct t r fs => by simp [valEqB, fieldsEqB_refl fs]
  | .vmap t r none => by simp [valEqB]
  | .vmap t r (some (p, es)) => by simp [valEqB, entriesEqB_refl es]
  | .varray t r es => by simp [valEqB, listEqB_refl es]
  | .vslice t r none => by simp [valEqB]
  | .vslice t r (some (p, es)) => by simp [valEqB, listEqB_refl es]
  | .vptr t r a => by simp [valEqB]
  | .viface t r none => by simp [valEqB]
  | .viface t r (some w) => by simp [valEqB, valEqB_refl w]
  | .vfunc t r n => by simp [valEqB]
  | .vother t r => by simp [valEqB]

theorem fieldsEqB_refl : ∀ l : List (FieldMeta × GoVal), fieldsEqB l l = true
  | [] => by simp [fieldsEqB]
  | (m, v) :: rest => by simp [fieldsEqB, valEqB_refl v, fieldsEqB_refl rest]

theorem entriesEqB_refl : ∀ l : List (GoVal × GoVal), entriesEqB l l = true
  | [] => by simp [entriesEqB]
  | (k, v) :: rest => by
      simp [entriesEqB, valEqB_refl k, valEqB_refl v, entriesEqB_refl rest]

theorem listEqB_refl : ∀ l : List GoVal, listEqB l l = true
  | [] => by simp [listEqB]
  | v :: rest => by simp [listEqB, valEqB_refl v, listEqB_refl rest]

end

/-- A reflexive Equal behaviour returns true on identical arguments. -/
theorem runEqualSpec_self (s : EqSpec) (hs : s.isRefl = true) (v : GoVal) :
    runEqualSpec s v v = true := by
  cases s with
  | payloadEq => exact valEqB_refl v
  | always r => simpa [runEqualSpec] using hs

/-- The type of a goodEqs value carries a reflexive Equal behaviour. -/
theorem goodEqs_ty (v : GoVal) (hg : goodEqs v = true) : goodEqsTy v.ty = true := by
  cases v <;> try rfl
  case vbool t r x => exact hg
  case vint t r x => exact hg
  case vuint t r x => exact hg
  case vfloat t r x => exact hg
  case vstring t r s => exact hg
  case vstruct t r fs =>
    simp only [goodEqs, Bool.and_eq_true] at hg
    exact hg.1
  case vmap t r m =>
    rcases m with _ | ⟨p, es⟩
    · exact hg
    · simp only [goodEqs, Bool.and_eq_true] at hg
      exact hg.1
  case varray t r es =>
    simp only [goodEqs, Bool.and_eq_true] at hg
    exact hg.1
  case vslice t r s =>
    rcases s with _ | ⟨p, es⟩
    · exact hg
    · simp only [goodEqs, Bool.and_eq_true] at hg
      exact hg.1
  case vptr t r a => exact hg
  case viface t r w =>
    cases w
    · exact hg
    · simp only [goodEqs, Bool.and_eq_true] at hg
      exact hg.1
  case vfunc t r n => exact hg
  case vother t r => exact hg

/-- The read-only marker does not affect goodEqs. -/
theorem goodEqs_orRO (b : Bool) (v : GoVal) : goodEqs (orRO b v) = goodEqs v := by
  cases v <;> try rfl
  case vmap t r m => rcases m with _ | ⟨p, es⟩ <;> rfl
  case vslice t r s => rcases s with _ | ⟨p, es⟩ <;> rfl
  case viface t r w => cases w <;> rfl

/-- Values looked up in a good heap are good. -/
theorem heapGood_lookup : ∀ (h : Heap) (a : Nat) (w : GoVal),
    heapGoodB h = true → lookupHeap h a = some w → goodEqs w = true := by
  intro h
  induction h with
  | nil => intro a w _ hl; cases hl
  | cons e rest ih =>
      intro a w hh hl
      obtain ⟨a2, v⟩ := e
      simp only [heapGoodB, Bool.and_eq_true] at hh
      simp only [lookupHeap] at hl
      split at hl
      · cases hl; exact hh.1
      · exact ih a w hh.2 hl

/-- Dereferencing preserves goodEqs over a good heap. -/
theorem goodEqs_elemOf (h : Heap) (hh : heapGoodB h = true) (v : GoVal)
    (hg : goodEqs v = true) : goodEqs (elemOf h v) = true := by
  cases v <;> try rfl
  case vptr t r a =>
    rcases a with _ | a
    · rfl
    · simp only [elemOf]
      cases hl : lookupHeap h a with
      | none => rfl
      | some w =>
          rw [goodEqs_orRO]
          exact heapGood_lookup h a w hh hl
  case viface t r w =>
    cases w with
    | none => rfl
    | some w =>
        simp only [goodEqs, Bool.and_eq_true] at hg
        simp only [elemOf]
        rw [goodEqs_orRO]
        exact hg.2

/-- Truncation preserves the type. -/
theorem runTruncate_ty (p : Int) (v : GoVal) : (runTruncate p v).ty = v.ty := by
  cases v <;> rfl

/-- Truncation preserves goodEqs. -/
theorem goodEqs_runTruncate (p : Int) (v : GoVal) (hg : goodEqs v = true) :
    goodEqs (runTruncate p v) = true := by
  cases v <;> try exact hg
  case vstruct t r fs =>
    simp only [goodEqs, Bool.and_eq_true] at hg ⊢
    refine ⟨hg.1, ?_⟩
    have h2 := hg.2
    clear hg
    induction fs with
    | nil => exact h2
    | cons f rest ih =>
        obtain ⟨m, w⟩ := f
        simp only [goodEqsFields, Bool.and_eq_true] at h2
        simp only [runTruncate, List.map_cons, goodEqsFields, Bool.and_eq_true]
        constructor
        · cases w <;> exact h2.1
        · have := ih h2.2
          simpa [runTruncate] using this

/-- A rec-continuation that, on identical good arguments, adds no diffs
and restores the path buffer. -/
def RecSelf (rec : RecFn) : Prop :=
  ∀ x level c c2, goodEqs x = true → rec x x level c = some c2 →
    c2.diff = c.diff ∧ c2.buff = c.buff

theorem structLoop_self (cfg : Config) (rec : RecFn) (hrec : RecSelf rec) (r : Bool) :
    ∀ (fs : List (FieldMeta × GoVal)) (level : Nat) (c c2 : Cmp),
      goodEqsFields fs = true →
      structLoop cfg rec r r fs (fs.map Prod.snd) level c = some c2 →
      c2.diff = c.diff ∧ c2.buff = c.buff := by
  intro fs
  induction fs with
  | nil =>
      intro level c c2 _ he
      simp only [structLoop] at he
      cases he
      exact ⟨rfl, rfl⟩
  | cons f rest ih =>
      intro level c c2 hg he
      obtain ⟨m, av⟩ := f
      simp only [goodEqsFields, Bool.and_eq_true] at hg
      simp only [List.map_cons, structLoop, List.tail_cons, List.headD_cons] at he
      split at he
      · cases he; exact ⟨rfl, rfl⟩
      · split at he
        · exact ih _ _ _ hg.2 he
        · split at he
          · exact ih _ _ _ hg.2 he
          · cases hr : rec (orRO (r || m.fpkgPath != "") av)
                (orRO (r || m.fpkgPath != "") av) (level + 1) (c.push m.fname) with
            | none => rw [hr] at he; cases he
            | some c3 =>
                rw [hr] at he
                have h3 := hrec _ _ _ _ (by rw [goodEqs_orRO]; exact hg.1) hr
                have h4 := ih _ _ _ hg.2 he
                refine ⟨by rw [h4.1, pop_diff, h3.1, push_diff], ?_⟩
                rw [h4.2]
                show c3.buff.dropLast = c.buff
                rw [h3.2]
                show (c.buff ++ [m.fname]).dropLast = c.buff
                simp

theorem arrayLoop_self (cfg : Config) (rec : RecFn) (hrec : RecSelf rec) (r : Bool) :
    ∀ (es : List GoVal) (i level : Nat) (c c2 : Cmp),
      goodEqsList es = true →
      arrayLoop cfg rec r r i es es level c = some c2 →
      c2.diff = c.diff ∧ c2.buff = c.buff := by
  intro es
  induction es with
  | nil =>
      intro i level c c2 _ he
      simp only [arrayLoop] at he
      cases he
      exact ⟨rfl, rfl⟩
  | cons v rest ih =>
      intro i level c c2 hg he
      simp only [goodEqsList, Bool.and_eq_true] at hg
      simp only [arrayLoop, List.tail_cons, List.headD_cons] at he
      split at he
      · cases he; exact ⟨rfl, rfl⟩
      · cases hr : rec (orRO r v) (orRO r v) (level + 1)
            (c.push ("array[" ++ toString i ++ "]")) with
        | none => rw [hr] at he; cases he
        | some c3 =>
            rw [hr] at he
            have h3 := hrec _ _ _ _ (by rw [goodEqs_orRO]; exact hg.1) hr
            have h4 := ih _ _ _ _ hg.2 he
            refine ⟨by rw [h4.1, pop_diff, h3.1, push_diff], ?_⟩
            rw [h4.2]
            show c3.buff.dropLast = c.buff
            rw [h3.2]
            show (c.buff ++ ["array[" ++ toString i ++ "]"]).dropLast = c.buff
            simp

/-- On identical good arguments the post-probe continuation adds no
diffs and leaves the path buffer unchanged. -/
theorem equalsRest_self (cfg : Config) (hcf : cfg.CompareFunctions = false)
    (h : Heap) (hh : heapGoodB h = true) (rec : RecFn) (hrec : RecSelf rec) :
    ∀ (x : GoVal) (level : Nat) (c c2 : Cmp), goodEqs x = true →
      equalsRest cfg h rec x x level c = some c2 →
      c2.diff = c.diff ∧ c2.buff = c.buff := by
  intro x level c c2 hg he
  cases x <;> simp only [equalsRest, GoVal.kindOf, reduceCtorEq, or_self, if_false,
      false_or, or_false, if_true, GoVal.boolPayload, GoVal.intPayload,
      GoVal.uintPayload, GoVal.strPayload, GoVal.floatPayload, GoVal.funcIsNil,
      GoVal.fieldsOf, GoVal.arrayElems, GoVal.roOf] at he
  case invalid => cases he; exact ⟨rfl, rfl⟩
  case vother t r => cases he; exact ⟨rfl, rfl⟩
  case vbool t r x =>
    rw [if_neg (by simp)] at he
    cases he
    exact ⟨rfl, rfl⟩
  case vint t r x =>
    rw [if_neg (by simp)] at he
    cases he
    exact ⟨rfl, rfl⟩
  case vuint t r x =>
    rw [if_neg (by simp)] at he
    cases he
    exact ⟨rfl, rfl⟩
  case vstring t r s =>
    rw [if_neg (by simp)] at he
    cases he
    exact ⟨rfl, rfl⟩
  case vfloat t r x =>
    split at he
    · cases he; exact ⟨rfl, rfl⟩
    · rw [if_neg (by simp)] at he
      cases he
      exact ⟨rfl, rfl⟩
  case vstruct t r fs =>
    simp only [goodEqs, Bool.and_eq_true] at hg
    exact structLoop_self cfg rec hrec r fs level c c2 hg.2 he
  case varray t r es =>
    simp only [goodEqs, Bool.and_eq_true] at hg
    exact arrayLoop_self cfg rec hrec r es 0 level c c2 hg.2 he
  case vfunc t r n =>
    rw [if_neg (by simp [hcf])] at he
    cases he
    exact ⟨rfl, rfl⟩
  case vmap t r m =>
    rcases m with _ | ⟨p, es⟩
    · simp [GoVal.isNil, GoVal.mapLen, GoVal.mapEntries] at he
      subst he
      exact ⟨rfl, rfl⟩
    · simp only [GoVal.isNil, GoVal.mapPtr] at he
      cases he
      exact ⟨rfl, rfl⟩
  case vslice t r s =>
    rcases s with _ | ⟨p, es⟩
    · simp [GoVal.isNil, GoVal.sliceLen, GoVal.sliceElems] at he
      subst he
      exact ⟨rfl, rfl⟩
    · simp [GoVal.isNil, GoVal.slicePtr, GoVal.sliceElems, GoVal.sliceLen,
        List.drop_length, sliceTailA, sliceTailB] at he
      subst he
      exact ⟨rfl, rfl⟩
  case vptr t r ad =>
    rcases ad with _ | pa
    · simp [GoVal.isNil] at he
      subst he
      exact ⟨rfl, rfl⟩
    · simp only [GoVal.isNil, GoVal.ptrOf, reduceCtorEq, or_self, if_false] at he
      split at he
      · cases he; exact ⟨rfl, rfl⟩
      · have h3 := hrec _ _ _ _
          (goodEqs_elemOf h hh (GoVal.vptr t r (some pa)) hg) he
        exact h3
  case viface t r w =>
    rcases w with _ | w
    · simp [GoVal.isNil] at he
      subst he
      exact ⟨rfl, rfl⟩
    · simp only [GoVal.isNil, reduceCtorEq, or_self, if_false] at he
      exact hrec _ _ _ _ (goodEqs_elemOf h hh (GoVal.viface t r (some w)) hg) he

/-- On identical good arguments cmp.equals adds no diffs and leaves the
path buffer unchanged. -/
theorem equalsF_self (cfg : Config) (hcf : cfg.CompareFunctions = false)
    (h : Heap) (hh : heapGoodB h = true) :
    ∀ (fuel : Nat) (x : GoVal) (level : Nat) (c c2 : Cmp), goodEqs x = true →
      equalsF cfg h fuel x x level c = some c2 →
      c2.diff = c.diff ∧ c2.buff = c.buff := by
  intro fuel
  induction fuel with
  | zero => intro x level c c2 _ he; cases he
  | succ fuel ih =>
      intro x level c c2 hg he
      simp only [equalsF] at he
      split at he
      · cases he; exact ⟨rfl, rfl⟩
      · split at he
        · cases he; exact ⟨rfl, rfl⟩
        · split at he
          · rename_i hv
            cases he
            have hv2 : x.isValid = false := by
              rcases hv with hv | hv <;> exact hv
            rw [if_neg (by simp [hv2]), if_neg (by simp [hv2])]
            exact ⟨rfl, rfl⟩
          · split at he
            · rename_i hne
              exact absurd rfl hne
            · split at he
              · cases he
                rw [if_neg (by simp)]
                exact ⟨rfl, rfl⟩
              · generalize hA : (if 0 < cfg.TimePrecision
                      ∧ (x.ty = timeType ∨ x.ty = durationType) ∧ x.roOf = false
                    then runTruncate cfg.TimePrecision x else x) = y at he
                have hgy : goodEqs y = true := by
                  rw [← hA]
                  split
                  · exact goodEqs_runTruncate _ _ hg
                  · exact hg
                split at he
                · rename_i m hm
                  split at he
                  · cases he
                    have hrefl : m.spec.isRefl = true := by
                      have hgt := goodEqs_ty y hgy
                      unfold goodEqsTy at hgt
                      rw [hm] at hgt
                      exact hgt
                    rw [if_pos (runEqualSpec_self m.spec hrefl y)]
                    exact ⟨rfl, rfl⟩
                  · exact equalsRest_self cfg hcf h hh _
                      (fun z l d d2 => ih z l d d2) y level c c2 hgy he
                · exact equalsRest_self cfg hcf h hh _
                    (fun z l d d2 => ih z l d d2) y level c c2 hgy he

/-- C3 (amended): under the default configuration, Equal(x, x) is empty
for every value x whose reachable user Equal methods (on x, its
subvalues, and everything stored in the heap) are reflexive — i.e.
return true when both arguments are the same value, as every lawful
equality method does.  The unrestricted claim fails
(`c3_reflexivity_counterexample`): the engine trusts a user Equal
method, so a method returning false on identical arguments makes
Equal(x, x) non-empty. -/
theorem c3_reflexivity_amended (h : Heap) (hh : heapGoodB h = true)
    (fuel : Nat) (x : GoVal) (r : List String) (hg : goodEqs x = true)
    (he : Equal defaultConfig h fuel (some x) (some x) = some r) : r = [] := by
  simp only [Equal] at he
  cases heq : equalsF defaultConfig h fuel x x 0 {} with
  | none => rw [heq] at he; cases he
  | some c2 =>
      rw [heq] at he
      cases he
      have hs := equalsF_self defaultConfig rfl h hh fuel x 0 {} c2 hg heq
      simpa using hs.1

/-- Struct walk where every position is either skipped (ignored tag, or
unexported under the default accessibility policy) or carries the same
good value on both sides: no diffs, path restored. -/
theorem structLoop_skipOrEq (cfg : Config)
    (hcu : cfg.CompareUnexportedFields = false) (rec : RecFn) (hrec : RecSelf rec) :
    ∀ (fas fbs : List (FieldMeta × GoVal)) (level : Nat) (c c2 : Cmp),
      (∀ p ∈ fas.zip fbs,
         (p.1.1.tagDeep = "-" ∨ p.1.1.fpkgPath ≠ "")
         ∨ (p.1.2 = p.2.2 ∧ goodEqs p.1.2 = true)) →
      fas.length = fbs.length →
      structLoop cfg rec false false fas (fbs.map Prod.snd) level c = some c2 →
      c2.diff = c.diff ∧ c2.buff = c.buff := by
  intro fas
  induction fas with
  | nil =>
      intro fbs level c c2 _ _ he
      simp only [structLoop] at he
      cases he
      exact ⟨rfl, rfl⟩
  | cons f rest ih =>
      intro fbs level c c2 hp hlen he
      obtain ⟨m, av⟩ := f
      cases fbs with
      | nil => cases hlen
      | cons g rest2 =>
          obtain ⟨m2, bv⟩ := g
          have hhead := hp ((m, av), (m2, bv)) (by simp)
          have htail : ∀ p ∈ rest.zip rest2,
              (p.1.1.tagDeep = "-" ∨ p.1.1.fpkgPath ≠ "")
              ∨ (p.1.2 = p.2.2 ∧ goodEqs p.1.2 = true) := by
            intro p hpm
            exact hp p (by simp [hpm])
          have hlen2 : rest.length = rest2.length := by
            simpa using hlen
          simp only [List.map_cons, structLoop, List.tail_cons, List.headD_cons] at he
          split at he
          · cases he; exact ⟨rfl, rfl⟩
          · split at he
            · exact ih rest2 _ _ _ htail hlen2 he
            · split at he
              · exact ih rest2 _ _ _ htail hlen2 he
              · rename_i hnp hnt
                have heqv : av = bv ∧ goodEqs av = true := by
                  rcases hhead with (htag | hpkg) | heqv
                  · exact absurd htag hnt
                  · exact absurd ⟨hpkg, hcu⟩ hnp
                  · exact heqv
                rw [heqv.1] at he
                cases hr : rec (orRO (false || m.fpkgPath != "") bv)
                    (orRO (false || m.fpkgPath != "") bv) (level + 1)
                    (c.push m.fname) with
                | none => rw [hr] at he; cases he
                | some c3 =>
                    rw [hr] at he
                    have h3 := hrec _ _ _ _
                      (by rw [goodEqs_orRO, ← heqv.1]; exact heqv.2) hr
                    have h4 := ih rest2 _ _ _ htail hlen2 he
                    refine ⟨by rw [h4.1, pop_diff, h3.1, push_diff], ?_⟩
                    rw [h4.2]
                    show c3.buff.dropLast = c.buff
                    rw [h3.2]
                    show (c.buff ++ [m.fname]).dropLast = c.buff
                    simp

/-- C8: struct comparison under the default configuration.  First
conjunct: for same-typed struct values, if every position where the two
sides might differ is skipped — tagged deep:"-" or unexported (under
default config unexported fields are not compared) — and the remaining
positions hold identical well-behaved values, Equal returns empty.
Second conjunct (spec scenario 3): the remaining fields are compared in
declaration order under a path segment equal to the field name, and the
unexported field id contributes nothing.  Third conjunct: two structs
whose only differing field is tagged deep:"-" compare equal. -/
theorem c8_structWalker :
    (∀ (h : Heap), heapGoodB h = true →
      ∀ (t : GoType) (fas fbs : List (FieldMeta × GoVal)) (fuel : Nat)
        (r : List String),
        t.implErr = false → t.equalM = none →
        fas.length = fbs.length →
        (∀ p ∈ fas.zip fbs,
          (p.1.1.tagDeep = "-" ∨ p.1.1.fpkgPath ≠ "")
          ∨ (p.1.2 = p.2.2 ∧ goodEqs p.1.2 = true)) →
        Equal defaultConfig h fuel (some (.vstruct t false fas))
          (some (.vstruct t false fbs)) = some r → r = [])
    ∧ Equal defaultConfig [] 10 (some (mkScen3 "foo" 2 1)) (some (mkScen3 "bar" 22 11))
        = some ["Name: foo != bar", "Number: 2 != 22"]
    ∧ Equal defaultConfig [] 10 (some (mkTagged 7 1)) (some (mkTagged 7 99)) = some [] := by
  refine ⟨?_, by rfl, by rfl⟩
  intro h hh t fas fbs fuel r himpl hm hlen hp he
  simp only [Equal] at he
  cases heq : equalsF defaultConfig h fuel (GoVal.vstruct t false fas)
      (GoVal.vstruct t false fbs) 0 {} with
  | none => rw [heq] at he; cases he
  | some c2 =>
      rw [heq] at he
      cases he
      cases fuel with
      | zero => cases heq
      | succ fuel =>
          simp only [equalsF] at heq
          rw [if_neg (by simp [defaultConfig]), if_neg (by simp [defaultConfig]),
              if_neg (by simp [GoVal.isValid]), if_neg (by simp [GoVal.ty]),
              if_neg (by simp [GoVal.ty, himpl]),
              if_neg (by simp [defaultConfig]), if_neg (by simp [defaultConfig])]
            at heq
          have hmm : (GoVal.vstruct t false fas).ty.equalM = none := hm
          rw [hmm] at heq
          simp only [equalsRest, GoVal.kindOf, reduceCtorEq, or_self, if_false,
            GoVal.roOf, GoVal.fieldsOf] at heq
          have hres := structLoop_skipOrEq defaultConfig rfl
            (equalsF defaultConfig h fuel)
            (fun z l d d2 hgz hez => equalsF_self defaultConfig rfl h hh fuel z l d d2 hgz hez)
            fas fbs 0 {} c2 hp hlen heq
          simpa using hres.1

/-- C3 (counterexample): reflexivity fails under the default
configuration for a value of a type whose Equal method has the expected
signature but returns false on every pair — a definable Go method. The
engine trusts the user method, so Equal(x, x) reports a diff. -/
theorem c3_reflexivity_counterexample :
    Equal defaultConfig [] 10
        (some (.vint badEqualType false 1)) (some (.vint badEqualType false 1))
      = some ["1 != 1"] := by
  rfl

/-- Witness for C1: with addresses 1 and 2 already seen, descending
into the pair (1, 3) is skipped — address 1 alone suppresses it. -/
theorem c1_singleAddressGuard_witness :
    equalsF defaultConfig pairHeap 5 (.vptr intPtrType false (some 1))
        (.vptr intPtrType false (some 3)) 0 { seen := [1, 2] } =
      some { seen := [1, 2] } := by
  have h1 := (c1_singleAddressGuard defaultConfig pairHeap 4 0 intPtrType
      false false 1 3 { seen := [1, 2] } (by decide) (by decide) (by decide)
      (by decide) (by decide)).1
  exact h1.trans (by decide)

/-- Witness for C3 (amended): a plain int value is reflexively equal. -/
theorem c3_reflexivity_amended_witness :
    heapGoodB [] = true ∧ goodEqs (GoVal.vint intType false 7) = true
    ∧ ([] : List String) = [] :=
  ⟨by decide, by simp [goodEqs, goodEqsTy, intType],
    c3_reflexivity_amended [] (by decide) 5 (GoVal.vint intType false 7) []
      (by simp [goodEqs, goodEqsTy, intType]) (by rfl)⟩

/-- Witness for C4: a one-diff comparison stays within the default
MaxDiff of 10. -/
theorem c4_maxDiffBound_witness :
    0 < defaultConfig.MaxDiff
    ∧ (["foo != bar"] : List String).length ≤ defaultConfig.MaxDiff :=
  ⟨by decide,
    (c4_maxDiffBound defaultConfig [] (by decide)).2 10
      (some (.vstring stringType false "foo"))
      (some (.vstring stringType false "bar")) ["foo != bar"] (by rfl)⟩

/-- Witness for C5: two errors.New-style values with different messages
produce exactly the message diff. -/
theorem c5_errorCapability_witness :
    equalsF defaultConfig errHeap 9 (.vptr errPtrType false (some 50))
      (.vptr errPtrType false (some 51)) 0 {} =
      some { diff := ["it broke != it fell apart"] } := by
  have h1 := (c5_errorCapability defaultConfig errHeap 8 0 {} (by decide)
      (by decide)).1
      (.vptr errPtrType false (some 50)) (.vptr errPtrType false (some 51))
      (by decide) (by decide) (by decide) (by decide)
      (Or.inr ⟨by decide, by decide⟩) (by decide) (by decide)
  exact h1.trans (by decide)

/-- Witness for C6: a matching-signature Equal method returning false
yields exactly one diff and no structural recursion. -/
theorem c6_userEqualProbe_witness :
    equalsF defaultConfig [] 5 (.vint badEqualType false 13)
      (.vint badEqualType false 42) 0 {} = some { diff := ["13 != 42"] } := by
  have h1 := (c6_userEqualProbe defaultConfig [] 4 0 (.vint badEqualType false 13)
      (.vint badEqualType false 42) {} (by decide) (by decide) (by decide)
      (by decide) (by decide) (by decide) (by decide)).1
      ⟨1, 30, 1, .kbool, .always false⟩ (by decide) (by decide) (by decide)
      (by decide) (by decide) (by decide)
  exact h1.trans (by decide)

/-- Witness for C7: floats 1 and 2 differ both raw and rendered, so one
diff with the default renderings is emitted. -/
theorem c7_floatComparison_witness :
    equalsF defaultConfig [] 5 (.vfloat float64Type false (.fin false 1 1 "1"))
      (.vfloat float64Type false (.fin false 2 1 "2")) 0 {} =
      some { diff := ["1 != 2"] } := by
  have h1 := (c7_floatComparison defaultConfig [] 4 0 float64Type false false
      (.fin false 1 1 "1") (.fin false 2 1 "2") {} (by decide) (by decide)
      (by decide) (by decide) (by decide)).1
  exact h1.trans (by decide)

/-- Witness for C8: two tagged-type values differing only in the
ignored field compare equal through the general invariance conjunct. -/
theorem c8_structWalker_witness :
    heapGoodB [] = true ∧ ([] : List String) = [] :=
  ⟨by decide,
    (c8_structWalker).1 [] (by decide) taggedType
      (mkTagged 7 1).fieldsOf (mkTagged 7 99).fieldsOf 10 []
      (by decide) (by decide) (by decide)
      (by
        intro p hpm
        simp [mkTagged, GoVal.fieldsOf] at hpm
        rcases hpm with hp1 | hp2
        · subst hp1
          exact Or.inr ⟨rfl, by simp [goodEqs, goodEqsTy, intType]⟩
        · subst hp2
          exact Or.inl (Or.inl rfl))
      (by rfl)⟩

/-- Witness for C10: two rich error values with equal messages but
different integer fields produce no diff and no traversal. -/
theorem c10_errorShortCircuit_witness :
    equalsF defaultConfig richHeap 5 (.vptr richErrPtrType false (some 60))
        (.vptr richErrPtrType false (some 61)) 0 {} = some {} :=
  c10_errorShortCircuit defaultConfig richHeap 4 0 _ _ {} (by decide) (by decide)
    (by decide) (by decide) (by decide) (by decide) (by decide) (by decide)
    (by decide) (by decide) (by decide)

end DeepSpec
